import Mathlib

/-!
Verification of the air-quality fetch-and-normalize pipeline
(`data_processor.py` plus the error handlers of `app.py`).

Shallow embedding conventions:
* a pandas DataFrame is a header (list of column names) plus a list of rows,
  each row a list of cell values read positionally;
* cell values are modelled by `Value`: `na` is the missing marker
  (NaN/NaT/None), `str`/`num`/`time` are strings, numbers (exact rationals in
  place of float64/int64) and parsed timestamps (datetime64, as integer
  codes), `obj` is a nested location object of which the code only ever reads
  the `name` and `city` sub-fields;
* `pd.to_datetime(_, errors := coerce)` is modelled by `parseTimestamp`:
  already-parsed timestamps are kept, integer-coded strings and integral
  numbers parse to a timestamp, everything else coerces to the missing
  marker;
* `sort_values` is modelled as a stable sort (`List.insertionSort`) on the
  datetime key with missing values ordered last (pandas default
  na_position is last);
* the HTTP world is an oracle (`Upstream`) giving, for each request the code
  can issue, either a 200 response with its parsed result records, a non-200
  status with its body, or a transport-level exception; the two strings
  derived from the wall clock (`date_from`, `date_to`) are passed in as
  parameters;
* Python `ValueError` / `ConnectionError` become the two constructors of
  `FetchError`.
-/

namespace AirQuality

/-- Cell values of a tabular structure (one pandas cell). -/
inductive Value where
  | na : Value
  | str (s : String) : Value
  | num (q : Rat) : Value
  | time (t : Int) : Value
  | obj (locName locCity : Option String) : Value
deriving DecidableEq, Repr

/-- Python-style whitespace test used by `str.strip`. -/
def isSpaceChar (c : Char) : Bool :=
  c = ' ' || c = '\t' || c = '\n' || c = '\r'

/-- Model of Python `str.strip`: drop leading and trailing whitespace. -/
def stripStr (s : String) : String :=
  ⟨((s.data.dropWhile isSpaceChar).reverse.dropWhile isSpaceChar).reverse⟩

/-- Model of Python `str.lower` (per-character lowering). -/
def lowerStr (s : String) : String :=
  ⟨s.data.map Char.toLower⟩

/-- Check that `pat` is a prefix of `hay` (character lists). -/
def prefixCL : List Char → List Char → Bool
  | [], _ => true
  | _ :: _, [] => false
  | a :: as, b :: bs => a = b && prefixCL as bs

/-- Check that `pat` occurs as a contiguous substring of `hay`
(character lists); the empty pattern always occurs, as with Python `in`. -/
def containsCL (pat : List Char) : List Char → Bool
  | [] => pat.isEmpty
  | c :: rest => prefixCL pat (c :: rest) || containsCL pat rest

/-- Model of Python `pat in hay` on strings. -/
def containsStr (hay pat : String) : Bool :=
  containsCL pat.data hay.data

/-- Digits of a decimal numeral, most significant first. -/
def digitsToNat : List Char → Option Nat
  | [] => none
  | cs => cs.foldl (fun acc c =>
      match acc with
      | none => none
      | some n => if c.isDigit then some (n * 10 + (c.toNat - '0'.toNat)) else none)
      (some 0)

/-- Integer literal parser used to model which strings pandas can coerce to a
timestamp: integer-coded strings parse, everything else fails. -/
def parseIntStr (s : String) : Option Int :=
  match s.data with
  | '-' :: rest => (digitsToNat rest).map (fun n => -(n : Int))
  | l => (digitsToNat l).map (fun n => (n : Int))

/-- Model of `pd.to_datetime(_, errors := coerce)` on one cell: timestamps are
kept, integral numbers and integer-coded strings become timestamps, and every
other value (including nested objects) coerces to the missing marker `na`. -/
def parseTimestamp : Value → Value
  | .time t => .time t
  | .num q => if q.den = 1 then .time q.num else .na
  | .str s =>
      match parseIntStr s with
      | some n => .time n
      | none => .na
  | .na => .na
  | .obj _ _ => .na

/-- Model of Python `str()` on a cell value, used by `astype(str)`; the exact
renderings of non-string values abstract Python's repr. -/
def pyStr : Value → String
  | .na => "nan"
  | .str s => s
  | .num q => toString q
  | .time t => "timestamp " ++ toString t
  | .obj n c => "locobject " ++ (n.getD "") ++ " " ++ (c.getD "")

/-- Tabular data: a pandas DataFrame as a header of column names and a list
of rows read positionally. -/
structure DataFrame where
  header : List String
  rows : List (List Value)
deriving DecidableEq, Repr

/-- Index of the (first) column with the given name, as used by pandas
label-based column access. -/
def colIdx (hdr : List String) (c : String) : Option Nat :=
  match hdr with
  | [] => none
  | h :: t => if h = c then some 0 else (colIdx t c).map (· + 1)

/-- Read the cell of row `r` in the column named `c` (missing marker when the
column is absent or the row is short). -/
def getCell (hdr : List String) (r : List Value) (c : String) : Value :=
  match colIdx hdr c with
  | some i => r.getD i .na
  | none => .na

/-- Cells of column `i`, top to bottom. -/
def colCells (i : Nat) (rows : List (List Value)) : List Value :=
  rows.map (fun r => r.getD i .na)

/-- Replace the entry at position `i` (no-op when the list is shorter). -/
def updateAt (i : Nat) (f : Value → Value) : List Value → List Value
  | [] => []
  | v :: vs =>
      match i with
      | 0 => f v :: vs
      | j + 1 => v :: updateAt j f vs

/-- Model of the pandas `DataFrame.empty` test: some axis has length zero. -/
def dfEmpty (df : DataFrame) : Bool :=
  df.rows.isEmpty || df.header.isEmpty

/-- Canonical five-column schema of the pipeline. -/
def canonicalHeader : List String :=
  ["datetime", "parameter", "value", "unit", "location"]

/-- Rectangularity: every row has exactly one cell per header entry (true of
every real pandas DataFrame). -/
def Rect (df : DataFrame) : Prop :=
  ∀ r ∈ df.rows, r.length = df.header.length

instance (df : DataFrame) : Decidable (Rect df) := by
  unfold Rect; infer_instance

/-- Model of `drop_duplicates(keep := first)` for an arbitrary key: keep each
row whose key was not seen before it. -/
def dedupBy {α β : Type} [DecidableEq β] (key : α → β) (seen : List β) :
    List α → List α
  | [] => []
  | r :: rs =>
      if key r ∈ seen then dedupBy key seen rs
      else r :: dedupBy key (key r :: seen) rs

/-- Step 1 of `clean_data` (lines 320-332): when a `datetime` column exists,
coerce it with `to_datetime` and drop duplicate rows keyed on
`(datetime, parameter)` when a `parameter` column exists, else on `datetime`
alone, keeping first occurrences. -/
def dedupStep (df : DataFrame) : DataFrame :=
  match colIdx df.header "datetime" with
  | some i =>
      let parsed := df.rows.map (updateAt i parseTimestamp)
      if "parameter" ∈ df.header then
        ⟨df.header,
         dedupBy (fun r => (r.getD i Value.na, getCell df.header r "parameter")) [] parsed⟩
      else
        ⟨df.header, dedupBy (fun r => r.getD i Value.na) [] parsed⟩
  | none => df

/-- Date-like column names re-parsed by step 2 of `clean_data` (line 336). -/
def dateColumns : List String :=
  ["datetime", "date", "date.utc", "dateLocal"]

/-- Coerce one named column with `to_datetime` (no-op when absent). -/
def parseColumn (hdr : List String) (c : String) (rows : List (List Value)) :
    List (List Value) :=
  match colIdx hdr c with
  | some i => rows.map (updateAt i parseTimestamp)
  | none => rows

/-- Step 2 of `clean_data` (lines 334-339): re-parse every known date-like
column through the timestamp coercion. -/
def parseDateColumns (hdr : List String) (rows : List (List Value)) :
    List (List Value) :=
  dateColumns.foldl (fun rs c => parseColumn hdr c rs) rows

/-- Numeric cell test. -/
def isNumCell : Value → Bool
  | .num _ => true
  | _ => false

/-- Missing-marker test. -/
def isNaCell : Value → Bool
  | .na => true
  | _ => false

/-- Model of `select_dtypes(include := [float64, int64])` membership for one
column: every cell is a number or the missing marker.  (A column holding only
missing values counts as numeric here; on such a column the imputation below
is a no-op, matching `fillna` with a NaN mean.) -/
def isNumericCol (cells : List Value) : Bool :=
  cells.all (fun v => isNumCell v || isNaCell v)

/-- Values present in a column (NaN excluded), as used by `Series.mean`. -/
def presentVals (cells : List Value) : List Rat :=
  cells.filterMap (fun v =>
    match v with
    | .num q => some q
    | _ => none)

/-- Model of `Series.mean()`: mean over present values, undefined (NaN) when
none are present. -/
def colMean (cells : List Value) : Option Rat :=
  if (presentVals cells).isEmpty then none
  else some ((presentVals cells).sum / ((presentVals cells).length : Rat))

/-- Model of `fillna m` on one cell. -/
def fillNa (m : Rat) : Value → Value
  | .na => .num m
  | v => v

/-- Imputation of one column, exactly as the loop body of lines 345-350: only
numeric columns with at least one missing entry are touched; missing entries
are replaced by the column mean over present values (a no-op when the mean
itself is NaN because no value is present). -/
def imputeColumn (i : Nat) (rows : List (List Value)) : List (List Value) :=
  if isNumericCol (colCells i rows) && (colCells i rows).any isNaCell then
    match colMean (colCells i rows) with
    | some m => rows.map (updateAt i (fillNa m))
    | none => rows
  else rows

/-- Step 3 of `clean_data` (lines 341-350): run the imputation over every
column. -/
def imputeAll (hdr : List String) (rows : List (List Value)) :
    List (List Value) :=
  (List.range hdr.length).foldl (fun rs i => imputeColumn i rs) rows

/-- Sort key order on datetime cells: parsed timestamps ascending, every
non-timestamp (in particular the missing marker) last, matching
`sort_values` with pandas default na_position last. -/
def valLEb : Value → Value → Bool
  | .time a, .time b => a ≤ b
  | .time _, _ => true
  | _, .time _ => false
  | _, _ => true

/-- Row ordering by the datetime column used by the final `sort_values`. -/
def rowLE (hdr : List String) (r1 r2 : List Value) : Prop :=
  valLEb (getCell hdr r1 "datetime") (getCell hdr r2 "datetime") = true

instance (hdr : List String) : DecidableRel (rowLE hdr) := by
  unfold rowLE; infer_instance

/-- Step 4 of `clean_data` (lines 352-354): sort ascending by `datetime` when
that column exists (modelled as a stable sort). -/
def sortStep (df : DataFrame) : DataFrame :=
  if "datetime" ∈ df.header then
    ⟨df.header, List.insertionSort (rowLE df.header) df.rows⟩
  else df

/-- Embedding of `clean_data` (data_processor.py lines 299-356): empty input
is returned unchanged; otherwise dedup on the coerced datetime, re-parse the
date-like columns, mean-impute partially missing numeric columns, and sort by
datetime. -/
def clean_data (df : DataFrame) : DataFrame :=
  if dfEmpty df then df
  else
    let d1 := dedupStep df
    let d2 : DataFrame := ⟨d1.header, parseDateColumns d1.header d1.rows⟩
    let d3 : DataFrame := ⟨d2.header, imputeAll d2.header d2.rows⟩
    sortStep d3

/-! ### Fetcher model -/

/-- Raw API record: a dict parsed from the JSON response body, as an
association list from field name to value. -/
abbrev Rec := List (String × Value)

/-- Location record returned by the locations endpoint, restricted to the
fields the code reads (`id`, `name`, `city`); `none` models an absent key. -/
structure LocRec where
  id : Option Int
  locName : Option String
  locCity : Option String
deriving DecidableEq, Repr

/-- Outcome of one HTTP request: 200 with parsed result records, a non-200
status with its body text, or a transport-level exception (timeouts
included). -/
inductive HttpOutcome (α : Type) where
  | ok (results : List α) : HttpOutcome α
  | httpStatus (code : Nat) (body : String) : HttpOutcome α
  | exn (descr : String) : HttpOutcome α
deriving DecidableEq, Repr

/-- Oracle for the upstream API: the response to the locations lookup, the
response to the per-location measurements query for each location id, and
the response to direct-measurements fallback strategy `i` (1, 2 or 3). -/
structure Upstream where
  locations : HttpOutcome LocRec
  measurementsForLocation : Int → HttpOutcome Rec
  directMeasurements : Nat → HttpOutcome Rec

/-- Column names of `pd.DataFrame(records)`: union of the record keys in
order of first appearance. -/
def recHeader (recs : List Rec) : List String :=
  recs.foldl (fun acc r => r.foldl (fun a kv => if kv.1 ∈ a then a else a ++ [kv.1]) acc) []

/-- Field lookup in one record (missing marker when the key is absent). -/
def lookupRec (r : Rec) (k : String) : Value :=
  match r.find? (fun kv => kv.1 = k) with
  | some kv => kv.2
  | none => .na

/-- Model of `pd.DataFrame(records)` for a list of dict records. -/
def recsToDF (recs : List Rec) : DataFrame :=
  ⟨recHeader recs, recs.map (fun r => (recHeader recs).map (lookupRec r))⟩

/-- Embedding of `filter_by_city` (lines 250-296): row filter by
case-insensitive substring match against the nested location object's
`name` or `city` sub-field (chosen from the first row's shape), else the
`locationName` column, else the flat `location` column; no filter when no
location signal exists. -/
def filter_by_city (df : DataFrame) (city : String) : DataFrame :=
  if dfEmpty df then df
  else
    let cl := lowerStr city
    let flatChecks : DataFrame :=
      match colIdx df.header "locationName" with
      | some i =>
          ⟨df.header, df.rows.filter (fun r => containsStr (lowerStr (pyStr (r.getD i .na))) cl)⟩
      | none =>
          match colIdx df.header "location" with
          | some i =>
              ⟨df.header, df.rows.filter (fun r => containsStr (lowerStr (pyStr (r.getD i .na))) cl)⟩
          | none => df
    match colIdx df.header "location" with
    | some i =>
        match (df.rows.headD []).getD i .na with
        | .obj (some _) _ =>
            ⟨df.header, df.rows.filter (fun r =>
               match r.getD i .na with
               | .obj n _ => containsStr (lowerStr (n.getD "")) cl
               | _ => false)⟩
        | .obj none (some _) =>
            ⟨df.header, df.rows.filter (fun r =>
               match r.getD i .na with
               | .obj _ c => containsStr (lowerStr (c.getD "")) cl
               | _ => false)⟩
        | _ => flatChecks
    | none => flatChecks

/-- Abstraction of the Python repr `str(loc)` of a location record (only its
truthiness and substring content matter to the code; the repr is always a
non-empty string). -/
def locRepr (loc : LocRec) : String :=
  "location record " ++ toString (loc.id.getD 0)

/-- Python truthiness filter on an optional string (`None` and the empty
string are falsy). -/
def truthyOpt (o : Option String) : Option String :=
  match o with
  | some s => if s.isEmpty then none else some s
  | none => none

/-- Display string chosen by the candidate filter:
`loc.get(city) or loc.get(name) or str(loc)`. -/
def locDisplay (loc : LocRec) : String :=
  match truthyOpt loc.locCity with
  | some c => c
  | none =>
      match truthyOpt loc.locName with
      | some n => n
      | none => locRepr loc

/-- Embedding of `_get_locations_for_city` (lines 184-212): on a 200
response, keep the records whose display string contains the city name
case-insensitively, capped at five; any non-200 status or exception yields
the empty candidate list. -/
def get_locations_for_city (city : String) (up : Upstream) : List LocRec :=
  match up.locations with
  | .ok locs =>
      (locs.filter (fun loc => containsStr (lowerStr (locDisplay loc)) (lowerStr city))).take 5
  | _ => []

/-- Embedding of `_get_measurements_for_locations` (lines 215-247):
accumulate the result records of every per-location 200 response (records
with a falsy id are skipped, failures are absorbed); an empty accumulation
yields the zero-row canonical table. -/
def get_measurements_for_locations (locs : List LocRec) (up : Upstream) : DataFrame :=
  let allMeas := locs.foldl (fun acc loc =>
      match loc.id with
      | none => acc
      | some i =>
          if i = 0 then acc
          else
            match up.measurementsForLocation i with
            | .ok recs => acc ++ recs
            | _ => acc) []
  if allMeas.isEmpty then ⟨canonicalHeader, []⟩
  else recsToDF allMeas

/-- Rendering of the parameter dict of direct strategy `i` (1, 2, 3), with
the wall-clock-derived bounds passed in; abstracts the Python dict repr
interpolated into the error message. -/
def paramsStr (dateFrom dateTo : String) : Nat → String
  | 2 => "limit: 50, date_from: " ++ dateFrom
  | 3 => "limit: 50, date_from: " ++ dateFrom ++ ", date_to: " ++ dateTo
  | _ => "limit: 50"

/-- Message of the `ValueError` raised on a final-attempt 422 (lines
151-161); the parsed body is abstracted to the upstream's diagnostic
message string and the optional detailed-errors list to empty. -/
def msg422 (body params : String) : String :=
  "API validation error (422): " ++ body ++ "\n\nAttempted parameters: " ++ params
    ++ "\n\nFull response: " ++ ⟨body.data.take 500⟩

/-- Message of the `ConnectionError` raised when the final attempt dies at
the transport level with no response attached (lines 167-177). -/
def msgConnExn (descr : String) : String :=
  "Failed to fetch measurements after 3 attempts: " ++ descr

/-- Message of the `ConnectionError` raised when the final attempt got a
4xx/5xx status and `raise_for_status` threw (lines 164-177); the attached
response body is echoed. -/
def msgConnHttp (code : Nat) (body : String) : String :=
  "Failed to fetch measurements after 3 attempts: HTTP error " ++ toString code
    ++ "\nAPI Response: " ++ body

/-- Error kinds of the pipeline, as the Python exception classes the code
raises: `ValueError` (the configuration-error kind handled at app.py line
288) and `ConnectionError` (the connectivity kind handled at line 292). -/
inductive FetchError where
  | valueError (msg : String) : FetchError
  | connectionError (msg : String) : FetchError
deriving DecidableEq, Repr

/-- Embedding of the fallback loop of `fetch_measurements_direct` (lines
116-181) over the remaining strategy indices: 200 with records returns the
(city-filtered, else unfiltered) table; 200 with no records moves on; 422
moves on except on the last attempt, where it raises `ValueError`; other
4xx/5xx statuses raise through `raise_for_status` and are re-raised as
`ConnectionError` on the last attempt; non-error non-200 statuses raise
nothing and the loop simply moves on; transport exceptions move on except
on the last attempt; an exhausted loop returns the zero-row canonical
table. -/
def runStrategies (city dateFrom dateTo : String) (up : Upstream) :
    List Nat → Except FetchError DataFrame
  | [] => .ok ⟨canonicalHeader, []⟩
  | i :: rest =>
      match up.directMeasurements i with
      | .ok recs =>
          if recs.isEmpty then runStrategies city dateFrom dateTo up rest
          else
            let df := recsToDF recs
            let filtered := filter_by_city df city
            if dfEmpty filtered then .ok df else .ok filtered
      | .httpStatus code body =>
          if code = 422 then
            if rest.isEmpty then
              .error (.valueError (msg422 body (paramsStr dateFrom dateTo i)))
            else runStrategies city dateFrom dateTo up rest
          else if 400 ≤ code ∧ code < 600 then
            if rest.isEmpty then .error (.connectionError (msgConnHttp code body))
            else runStrategies city dateFrom dateTo up rest
          else runStrategies city dateFrom dateTo up rest
      | .exn descr =>
          if rest.isEmpty then .error (.connectionError (msgConnExn descr))
          else runStrategies city dateFrom dateTo up rest

/-- Embedding of `fetch_measurements_direct` (lines 85-181): when the
candidate-location lookup yields a non-empty list, the combined per-site
table is returned unconditionally; only an empty candidate list reaches the
direct fallback strategies.  (The helpers absorb their own failures, so the
surrounding try/except contributes no extra behaviour.) -/
def fetch_measurements_direct (city dateFrom dateTo : String) (up : Upstream) :
    Except FetchError DataFrame :=
  let locs := get_locations_for_city city up
  if locs.isEmpty then runStrategies city dateFrom dateTo up [1, 2, 3]
  else .ok (get_measurements_for_locations locs up)

/-- Credential resolution order of `get_api_key` (lines 32-45): the
Streamlit secret when it is truthy, else the environment variable. -/
def resolveCredential (secrets envVar : Option String) : Option String :=
  match secrets with
  | some s => if s.isEmpty then envVar else some s
  | none => envVar

/-- Message of the `ValueError` raised for a missing or placeholder
credential (lines 48-55). -/
def apiKeyErrorMsg : String :=
  "API key not found. Please set OPENAQ_API_KEY:\n- For Streamlit Cloud: Add it in Settings > Secrets\n- For local development: Add it to your .env file\nGet your API key from: https://openaq.org/"

/-- Embedding of `get_api_key` (lines 18-57): resolve the credential from
the two sources, reject a missing, placeholder or blank value with
`ValueError`, and return the stripped key otherwise. -/
def get_api_key (secrets envVar : Option String) : Except FetchError String :=
  match resolveCredential secrets envVar with
  | none => .error (.valueError apiKeyErrorMsg)
  | some k =>
      if k = "your_key_here" || stripStr k = "" then .error (.valueError apiKeyErrorMsg)
      else .ok (stripStr k)

/-- Embedding of `fetch_aqi_data` (lines 60-82): resolve the credential
first; only on success is the measurements fetch (and hence any HTTP
request) attempted. -/
def fetch_aqi_data (secrets envVar : Option String) (city dateFrom dateTo : String)
    (up : Upstream) : Except FetchError DataFrame :=
  match get_api_key secrets envVar with
  | .error e => .error e
  | .ok _ => fetch_measurements_direct city dateFrom dateTo up

/-- Error classification of the app.py handlers (lines 288-294): a
`ValueError` is surfaced as a configuration error, a `ConnectionError` as a
connection error. -/
def classify_error : FetchError → String
  | .valueError _ => "Configuration Error"
  | .connectionError _ => "Connection Error"


/-! ### Derived predicates used in the claim statements -/

/-- Cells a timestamp coercion leaves unchanged: parsed timestamps and the
missing marker (exactly the fixed points of `parseTimestamp`). -/
def isTimeOrNa : Value → Bool
  | .time _ => true
  | .na => true
  | _ => false

/-- Result of the line 345-350 imputation loop on the cell list of one
column, stated as a column transformer. -/
def imputedCells (cells : List Value) : List Value :=
  if isNumericCol cells && cells.any isNaCell then
    match colMean cells with
    | some m => cells.map (fillNa m)
    | none => cells
  else cells

/-- Column on which the imputation loop is a no-op: whenever it is numeric
and has a missing entry, no value is present (so the mean is NaN and
`fillna` changes nothing). -/
def ImputeTrivial (cells : List Value) : Prop :=
  isNumericCol cells = true → cells.any isNaCell = true → presentVals cells = []

/-- Guard under which mean imputation cannot rewrite the `parameter` column
(and hence cannot alter dedup keys): when a parameter column exists, it
either has no missing cell or no numeric cell. -/
def paramImputeSafe (df : DataFrame) : Prop :=
  "parameter" ∈ df.header →
    (∀ r ∈ df.rows, isNaCell (getCell df.header r "parameter") = false) ∨
    (∀ r ∈ df.rows, isNumCell (getCell df.header r "parameter") = false)

instance (df : DataFrame) : Decidable (paramImputeSafe df) := by
  unfold paramImputeSafe; infer_instance

/-- Per-row action of `parseColumn`: coerce the found index, if any. -/
def parseCellFun (hdr : List String) (c : String) : List Value → List Value :=
  match colIdx hdr c with
  | some i => updateAt i parseTimestamp
  | none => id

/-! ### Concrete worlds and tables used by the claim theorems -/

/-- Upstream world where the locations lookup finds a matching site, every
per-site measurements query returns zero records, and the direct fallback
would return data. -/
def upSitesEmpty : Upstream :=
  { locations := .ok [⟨some 7, some "London Westminster", none⟩]
    measurementsForLocation := fun _ => .ok []
    directMeasurements := fun _ =>
      .ok [[("datetime", .str "1"), ("parameter", .str "pm25"), ("value", .num 3)]] }

/-- Upstream world for the C3 witness: one matching site whose per-site
query returns a record. -/
def upSiteData : Upstream :=
  { locations := .ok [⟨some 7, some "London Westminster", none⟩]
    measurementsForLocation := fun _ => .ok [[("datetime", .str "1"), ("value", .num 2)]]
    directMeasurements := fun _ => .ok [] }

/-- Upstream world where every direct fallback attempt is rejected with
HTTP 422 and the locations lookup finds nothing. -/
def up422 : Upstream :=
  { locations := .ok []
    measurementsForLocation := fun _ => .ok []
    directMeasurements := fun _ => .httpStatus 422 "Invalid parameters" }

/-- C5 counterexample input: a zero-row table with a non-canonical header. -/
def emptyFooDF : DataFrame := ⟨["foo"], []⟩

/-- Upstream world in which every request succeeds with zero results. -/
def upOkEmpty : Upstream :=
  { locations := .ok []
    measurementsForLocation := fun _ => .ok []
    directMeasurements := fun _ => .ok [] }

/-- C1 counterexample input: the duplicated key's first occurrence has a
missing value, which imputation later rewrites to the column mean. -/
def dupValueDF : DataFrame :=
  ⟨["datetime", "parameter", "value"],
   [[.str "1", .str "pm25", .na],
    [.str "1", .str "pm25", .num 10],
    [.str "2", .str "pm25", .num 20]]⟩

/-- C2 counterexample input: the `(datetime, parameter)` key is duplicated
and only the dropped duplicate carries the present value. -/
def dupNaDF : DataFrame :=
  ⟨["datetime", "parameter", "value"],
   [[.str "1", .str "pm25", .na],
    [.str "1", .str "pm25", .num 10]]⟩

/-- Raw table used by the C2 witness: the spec scenario with
`value = [10.0, missing, 20.0]` for pm25. -/
def meanDF : DataFrame :=
  ⟨["datetime", "parameter", "value"],
   [[.str "1", .str "pm25", .num 10],
    [.str "2", .str "pm25", .na],
    [.str "3", .str "pm25", .num 20]]⟩

/-- C8 counterexample input: a numeric parameter column with one missing
entry, so mean imputation rewrites a dedup key. -/
def numParamDF : DataFrame :=
  ⟨["datetime", "parameter", "value"],
   [[.str "0", .num 5, .num 1],
    [.str "0", .na, .num 2]]⟩

/-- Raw table used by the C8 witness: duplicate keys and a string parameter
column. -/
def dupDF : DataFrame :=
  ⟨["datetime", "parameter", "value"],
   [[.str "5", .str "pm25", .num 1],
    [.str "5", .str "pm25", .num 2],
    [.str "3", .str "pm25", .num 9]]⟩

/-- Raw table used by the C9 witness: three rows, one with an unparseable
timestamp, out of order. -/
def sortWitnessDF : DataFrame :=
  ⟨["datetime", "parameter", "value"],
   [[.str "9", .str "pm25", .num 2],
    [.str "not a date", .str "pm25", .num 1],
    [.str "4", .str "no2", .num 3]]⟩

/-- Upstream world where every request dies at the transport level. -/
def upAllTimeout : Upstream :=
  { locations := .exn "timeout"
    measurementsForLocation := fun _ => .exn "timeout"
    directMeasurements := fun _ => .exn "timed out" }

/-! ### Claims C3 - C7: fetcher behaviour -/

/-- C3 counterexample: with a non-empty candidate site set whose per-site
queries all return zero records, fetch returns the empty per-site table; the
direct fallback loop, had it run, would have returned a non-empty table, so
fetch does not fall back as claimed. -/
theorem c3_counterexample :
    fetch_measurements_direct "London" "DF" "DT" upSitesEmpty =
      .ok ⟨canonicalHeader, []⟩ ∧
    runStrategies "London" "DF" "DT" upSitesEmpty [1, 2, 3] =
      .ok ⟨["datetime", "parameter", "value"],
           [[.str "1", .str "pm25", .num 3]]⟩ :=
  ⟨rfl, rfl⟩

/-- C3 (amended): whenever the locations lookup yields a non-empty candidate
site set, fetch returns the combined per-site result unconditionally — even
when it is empty — and the direct fallback loop never runs; the fallback is
reached only when the candidate set is empty. -/
theorem c3_per_site_result_returned (city dateFrom dateTo : String) (up : Upstream)
    (h : get_locations_for_city city up ≠ []) :
    fetch_measurements_direct city dateFrom dateTo up =
      .ok (get_measurements_for_locations (get_locations_for_city city up) up) := by
  unfold fetch_measurements_direct
  have hie : (get_locations_for_city city up).isEmpty = false := by
    cases hl : get_locations_for_city city up with
    | nil => exact absurd hl h
    | cons a l => rfl
  simp [hie]

/-- C3 witness: the amended theorem applied to a concrete world with a
non-empty candidate set. -/
theorem c3_witness :
    get_locations_for_city "London" upSiteData ≠ [] ∧
    fetch_measurements_direct "London" "DF" "DT" upSiteData =
      .ok (get_measurements_for_locations (get_locations_for_city "London" upSiteData)
            upSiteData) :=
  ⟨by decide, c3_per_site_result_returned "London" "DF" "DT" upSiteData (by decide)⟩

/-- C4 (code bug evidence): when the upstream rejects every fallback attempt
with HTTP 422, fetch raises the `ValueError` kind — the very kind app.py
classifies as a configuration error — not the `ConnectionError` kind used
for upstream failures; the message does contain the last attempted
parameter set. -/
theorem c4_exhausted_422_raises_value_error :
    fetch_aqi_data (some "k1") none "London" "DF" "DT" up422 =
      .error (.valueError (msg422 "Invalid parameters" (paramsStr "DF" "DT" 3))) ∧
    classify_error (.valueError (msg422 "Invalid parameters" (paramsStr "DF" "DT" 3))) =
      "Configuration Error" ∧
    msg422 "Invalid parameters" (paramsStr "DF" "DT" 3) =
      "API validation error (422): Invalid parameters\n\nAttempted parameters: " ++
        paramsStr "DF" "DT" 3 ++ "\n\nFull response: Invalid parameters" :=
  ⟨rfl, rfl, rfl⟩

/-- C5 counterexample: on a zero-row table whose header is not canonical,
clean returns the input unchanged, so the output does not carry the five
canonical column names. -/
theorem c5_counterexample :
    clean_data emptyFooDF = emptyFooDF ∧ emptyFooDF.header ≠ canonicalHeader := by
  exact ⟨rfl, by decide⟩

/-- C5 (amended): clean returns any zero-row input unchanged — same columns,
zero rows, no error; in particular the canonical zero-row table comes back
carrying the five canonical column names. -/
theorem c5_empty_returned_unchanged (df : DataFrame) (h : df.rows = []) :
    clean_data df = df := by
  unfold clean_data dfEmpty
  simp [h]

/-- C5 witness: the amended theorem applied to the canonical empty table. -/
theorem c5_witness :
    (⟨canonicalHeader, []⟩ : DataFrame).rows = [] ∧
      clean_data ⟨canonicalHeader, []⟩ = ⟨canonicalHeader, []⟩ :=
  ⟨rfl, c5_empty_returned_unchanged ⟨canonicalHeader, []⟩ rfl⟩

/-- C6: with a credential that resolves to nothing, to the placeholder
value, or to a blank string, fetch fails with the `ValueError`
configuration error; the conclusion holds for every upstream oracle, so no
HTTP request outcome can influence it — the error precedes any request. -/
theorem c6_config_error_before_http (secrets envVar : Option String)
    (city dateFrom dateTo : String) (up : Upstream)
    (h : resolveCredential secrets envVar = none ∨
         ∃ k, resolveCredential secrets envVar = some k ∧
           (k = "your_key_here" ∨ stripStr k = "")) :
    fetch_aqi_data secrets envVar city dateFrom dateTo up =
      .error (.valueError apiKeyErrorMsg) := by
  unfold fetch_aqi_data get_api_key
  rcases h with h | ⟨k, hk, hbad⟩
  · rw [h]
  · rw [hk]
    rcases hbad with hb | hb <;> simp [hb]

/-- C6 witness: the placeholder credential in the secrets source triggers
the configuration error even though a real key sits in the environment and
the upstream would answer. -/
theorem c6_witness :
    (resolveCredential (some "your_key_here") (some "realkey") = none ∨
     ∃ k, resolveCredential (some "your_key_here") (some "realkey") = some k ∧
       (k = "your_key_here" ∨ stripStr k = "")) ∧
    fetch_aqi_data (some "your_key_here") (some "realkey") "London" "DF" "DT" upOkEmpty =
      .error (.valueError apiKeyErrorMsg) :=
  ⟨Or.inr ⟨"your_key_here", rfl, Or.inl rfl⟩,
   c6_config_error_before_http (some "your_key_here") (some "realkey") "London" "DF" "DT"
     upOkEmpty (Or.inr ⟨"your_key_here", rfl, Or.inl rfl⟩)⟩

/-- C7 counterexample: when every attempt times out, fetch does not return
an empty table — the failing final attempt re-raises as `ConnectionError`. -/
theorem c7_counterexample :
    fetch_measurements_direct "London" "DF" "DT" upAllTimeout =
      .error (.connectionError (msgConnExn "timed out")) :=
  rfl

/-- Loop step: an attempt that is not a 200-with-records moves the fallback
loop on to the remaining strategies whenever some remain. -/
theorem runStrategies_step (city dateFrom dateTo : String) (up : Upstream)
    (i : Nat) (rest : List Nat) (hrest : rest ≠ [])
    (h : ∀ recs, up.directMeasurements i = .ok recs → recs = []) :
    runStrategies city dateFrom dateTo up (i :: rest) =
      runStrategies city dateFrom dateTo up rest := by
  conv_lhs => rw [runStrategies.eq_def]
  cases hout : up.directMeasurements i with
  | ok recs =>
      have hrecs : recs = [] := h recs hout
      subst hrecs
      simp [hout]
  | httpStatus code body =>
      by_cases h422 : code = 422 <;> by_cases hcc : 400 ≤ code ∧ code < 600 <;>
        simp [hout, h422, hcc, hrest]
  | exn descr => simp [hout, hrest]

/-- Final loop iteration with a benign outcome (a 200 with zero records, or
a non-error non-200 status that `raise_for_status` lets pass): the loop
falls through and the zero-row canonical table is returned. -/
theorem runStrategies_last_empty (city dateFrom dateTo : String) (up : Upstream) (i : Nat)
    (h : up.directMeasurements i = .ok [] ∨
         ∃ code body, up.directMeasurements i = .httpStatus code body ∧
           code ≠ 422 ∧ ¬(400 ≤ code ∧ code < 600)) :
    runStrategies city dateFrom dateTo up [i] = .ok ⟨canonicalHeader, []⟩ := by
  conv_lhs => rw [runStrategies.eq_def]
  rcases h with h | ⟨code, body, h, h1, h2⟩
  · simp [h, runStrategies]
  · simp [h, h1, h2, runStrategies]

/-- C7 (amended): if the locations lookup yields no candidates, the first
two direct attempts never return a 200 with records, and the final attempt
ends benignly (200 with zero results, or a non-error non-200 status), fetch
returns the zero-row canonical table; a final attempt that dies at the
transport level or with a 4xx/5xx instead raises, as the counterexample
shows. -/
theorem c7_empty_table_on_exhausted (city dateFrom dateTo : String) (up : Upstream)
    (h0 : get_locations_for_city city up = [])
    (h1 : ∀ recs, up.directMeasurements 1 = .ok recs → recs = [])
    (h2 : ∀ recs, up.directMeasurements 2 = .ok recs → recs = [])
    (h3 : up.directMeasurements 3 = .ok [] ∨
          ∃ code body, up.directMeasurements 3 = .httpStatus code body ∧
            code ≠ 422 ∧ ¬(400 ≤ code ∧ code < 600)) :
    fetch_measurements_direct city dateFrom dateTo up = .ok ⟨canonicalHeader, []⟩ := by
  unfold fetch_measurements_direct
  rw [h0]
  simp only [List.isEmpty_nil, if_true]
  rw [runStrategies_step city dateFrom dateTo up 1 [2, 3] (by decide) h1,
      runStrategies_step city dateFrom dateTo up 2 [3] (by decide) h2,
      runStrategies_last_empty city dateFrom dateTo up 3 h3]

/-- C7 witness: every strategy answers 200 with zero results; fetch returns
the zero-row canonical table. -/
theorem c7_witness :
    get_locations_for_city "London" upOkEmpty = [] ∧
    fetch_measurements_direct "London" "DF" "DT" upOkEmpty = .ok ⟨canonicalHeader, []⟩ :=
  ⟨rfl,
   c7_empty_table_on_exhausted "London" "DF" "DT" upOkEmpty rfl
     (fun _ h => (HttpOutcome.ok.inj h).symm)
     (fun _ h => (HttpOutcome.ok.inj h).symm)
     (Or.inl rfl)⟩

/-! ### List-level lemmas about the normalizer building blocks -/

/-- Totality of the datetime cell ordering. -/
theorem valLEb_total (v w : Value) : valLEb v w = true ∨ valLEb w v = true := by
  cases v <;> cases w <;> simp [valLEb] <;> omega

/-- Transitivity of the datetime cell ordering. -/
theorem valLEb_trans {u v w : Value} (h1 : valLEb u v = true) (h2 : valLEb v w = true) :
    valLEb u w = true := by
  cases u <;> cases v <;> cases w <;> simp_all [valLEb] <;> omega

/-- Totality of the row ordering used by `sortStep`. -/
theorem rowLE_total (hdr : List String) : IsTotal (List Value) (rowLE hdr) :=
  ⟨fun _ _ => valLEb_total _ _⟩

/-- Transitivity of the row ordering used by `sortStep`. -/
theorem rowLE_trans (hdr : List String) : IsTrans (List Value) (rowLE hdr) :=
  ⟨fun _ _ _ h1 h2 => valLEb_trans h1 h2⟩

/-- Point update preserves length. -/
theorem updateAt_length (i : Nat) (f : Value → Value) (r : List Value) :
    (updateAt i f r).length = r.length := by
  induction r generalizing i with
  | nil => simp [updateAt]
  | cons v vs ih =>
      cases i with
      | zero => simp [updateAt]
      | succ j => simpa [updateAt] using ih j

/-- Point update at another position does not change a read. -/
theorem updateAt_getD_ne (f : Value → Value) (r : List Value) :
    ∀ (i j : Nat), i ≠ j → (updateAt j f r).getD i .na = r.getD i .na := by
  induction r with
  | nil => intro i j _; simp [updateAt]
  | cons v vs ih =>
      intro i j h
      cases j with
      | zero =>
          cases i with
          | zero => exact absurd rfl h
          | succ i' => simp [updateAt]
      | succ j' =>
          cases i with
          | zero => simp [updateAt]
          | succ i' => simpa [updateAt] using ih i' j' (fun hc => h (by omega))

/-- Point update in range rewrites the read through `f`. -/
theorem updateAt_getD_self (f : Value → Value) (r : List Value) :
    ∀ (i : Nat), i < r.length → (updateAt i f r).getD i .na = f (r.getD i .na) := by
  induction r with
  | nil => intro i h; exact absurd h (by simp)
  | cons v vs ih =>
      intro i h
      cases i with
      | zero => simp [updateAt]
      | succ i' => simpa [updateAt] using ih i' (by simpa using h)

/-- Point update beyond the end of the list is the identity. -/
theorem updateAt_of_ge (f : Value → Value) (r : List Value) :
    ∀ (i : Nat), r.length ≤ i → updateAt i f r = r := by
  induction r with
  | nil => intro i _; simp [updateAt]
  | cons v vs ih =>
      intro i h
      cases i with
      | zero => exact absurd h (by simp)
      | succ i' => simpa [updateAt] using ih i' (by simpa using h)

/-- Point update with a function fixing the stored value is the identity. -/
theorem updateAt_of_fix (f : Value → Value) (r : List Value) :
    ∀ (i : Nat), f (r.getD i .na) = r.getD i .na → updateAt i f r = r := by
  induction r with
  | nil => intro i _; simp [updateAt]
  | cons v vs ih =>
      intro i h
      cases i with
      | zero => simpa [updateAt] using h
      | succ i' => simpa [updateAt] using ih i' (by simpa using h)

/-- Reading column `i` after updating column `j ≠ i` in every row. -/
theorem colCells_map_updateAt_ne {i j : Nat} (hij : i ≠ j) (f : Value → Value)
    (rows : List (List Value)) :
    colCells i (rows.map (updateAt j f)) = colCells i rows := by
  unfold colCells
  rw [List.map_map]
  exact List.map_congr_left (fun r _ => updateAt_getD_ne f r i j hij)

/-- Reading column `i` after updating it in every row of full width. -/
theorem colCells_map_updateAt_self {i : Nat} (f : Value → Value)
    (rows : List (List Value)) (h : ∀ r ∈ rows, i < r.length) :
    colCells i (rows.map (updateAt i f)) = (colCells i rows).map f := by
  unfold colCells
  rw [List.map_map, List.map_map]
  exact List.map_congr_left (fun r hr => updateAt_getD_self f r i (h r hr))

/-- Timestamp coercion always lands in a fixed point. -/
theorem parse_isTimeOrNa (v : Value) : isTimeOrNa (parseTimestamp v) = true := by
  cases v with
  | num q =>
      by_cases h : q.den = 1 <;> simp [parseTimestamp, h, isTimeOrNa]
  | str s =>
      cases h : parseIntStr s <;> simp [parseTimestamp, h, isTimeOrNa]
  | _ => simp [parseTimestamp, isTimeOrNa]

/-- Fixed points of the timestamp coercion are exactly timestamps and the
missing marker. -/
theorem isTimeOrNa_fix {v : Value} (h : isTimeOrNa v = true) : parseTimestamp v = v := by
  cases v <;> simp_all [isTimeOrNa, parseTimestamp]

/-- Membership in a deduplicated list implies membership in the source. -/
theorem mem_of_mem_dedupBy {α β : Type} [DecidableEq β] (key : α → β) :
    ∀ {rs : List α} {seen : List β} {r : α}, r ∈ dedupBy key seen rs → r ∈ rs := by
  intro rs
  induction rs with
  | nil => intro _ _ h; exact absurd h (by simp [dedupBy])
  | cons a l ih =>
      intro seen r h
      by_cases ha : key a ∈ seen
      · simp only [dedupBy, if_pos ha] at h
        exact List.mem_cons_of_mem a (ih h)
      · simp only [dedupBy, if_neg ha, List.mem_cons] at h
        rcases h with h | h
        · exact h ▸ List.mem_cons_self a l
        · exact List.mem_cons_of_mem a (ih h)

/-- Keys of a deduplicated list are pairwise distinct and avoid the seen
set. -/
theorem dedupBy_keys_nodup {α β : Type} [DecidableEq β] (key : α → β) :
    ∀ (rs : List α) (seen : List β),
      ((dedupBy key seen rs).map key).Nodup ∧
      ∀ k ∈ (dedupBy key seen rs).map key, k ∉ seen := by
  intro rs
  induction rs with
  | nil => intro seen; simp [dedupBy]
  | cons a l ih =>
      intro seen
      by_cases ha : key a ∈ seen
      · simpa only [dedupBy, if_pos ha] using ih seen
      · have h2 := ih (key a :: seen)
        simp only [dedupBy, if_neg ha, List.map_cons, List.nodup_cons]
        refine ⟨⟨fun hmem => ?_, h2.1⟩, fun k hk => ?_⟩
        · exact (h2.2 (key a) hmem) (List.mem_cons_self _ _)
        · rcases List.mem_cons.1 hk with hk | hk
          · exact hk ▸ ha
          · intro hcon
            exact (h2.2 k hk) (List.mem_cons_of_mem _ hcon)

/-- Deduplication is the identity on a list with pairwise distinct keys
avoiding the seen set. -/
theorem dedupBy_eq_self {α β : Type} [DecidableEq β] (key : α → β) :
    ∀ (rs : List α) (seen : List β), ((rs.map key).Nodup) →
      (∀ r ∈ rs, key r ∉ seen) → dedupBy key seen rs = rs := by
  intro rs
  induction rs with
  | nil => intro seen _ _; rfl
  | cons a l ih =>
      intro seen hnd hav
      have ha : key a ∉ seen := hav a (List.mem_cons_self _ _)
      simp only [List.map_cons, List.nodup_cons] at hnd
      simp only [dedupBy, if_neg ha]
      refine congrArg (a :: ·) (ih (key a :: seen) hnd.2 ?_)
      intro r hr
      simp only [List.mem_cons]
      rintro (hk | hk)
      · exact hnd.1 (hk ▸ List.mem_map_of_mem key hr)
      · exact hav r (List.mem_cons_of_mem a hr) hk

/-- Filtering a deduplicated list by an unseen key keeps exactly the first
source occurrence of that key. -/
theorem dedupBy_filter_key {α β : Type} [DecidableEq β] (key : α → β) (k : β) :
    ∀ (rs : List α) (seen : List β), k ∉ seen →
      (dedupBy key seen rs).filter (fun r => key r = k) =
        (rs.filter (fun r => key r = k)).take 1 := by
  intro rs
  induction rs with
  | nil => intro seen _; rfl
  | cons a l ih =>
      intro seen hk
      by_cases ha : key a ∈ seen
      · have hne : (key a = k) = False := by
          simp only [eq_iff_iff, iff_false]
          exact fun hc => hk (hc ▸ ha)
        simp only [dedupBy, if_pos ha, List.filter_cons, hne]
        simpa using ih seen hk
      · by_cases hak : key a = k
        · have hfe : (dedupBy key (key a :: seen) l).filter (fun r => key r = k) = [] := by
            rw [List.filter_eq_nil_iff]
            intro x hx
            have hxk := (dedupBy_keys_nodup key l (key a :: seen)).2 (key x)
              (List.mem_map_of_mem key hx)
            simp only [List.mem_cons, not_or] at hxk
            simpa using fun hc => hxk.1 (by rw [hc, ← hak])
          rw [hak] at hfe
          simp [dedupBy, hk, List.filter_cons, hak, hfe]
        · have hks : k ∉ key a :: seen := by
            simp only [List.mem_cons, not_or]
            exact ⟨fun hc => hak hc.symm, hk⟩
          simp only [dedupBy, if_neg ha, List.filter_cons, hak]
          simpa [hak] using ih (key a :: seen) hks

/-! ### Column index lemmas -/

/-- Found column indices are in range. -/
theorem colIdx_lt {c : String} :
    ∀ {hdr : List String} {i : Nat}, colIdx hdr c = some i → i < hdr.length := by
  intro hdr
  induction hdr with
  | nil => intro i h; exact absurd h (by simp [colIdx])
  | cons h t ih =>
      intro i hh
      by_cases he : h = c
      · simp only [colIdx, if_pos he, Option.some.injEq] at hh
        subst hh
        simp
      · simp only [colIdx, if_neg he, Option.map_eq_some'] at hh
        obtain ⟨j, hj, rfl⟩ := hh
        have hjl := ih hj
        simp only [List.length_cons]
        omega

/-- A found column index reads back the requested name. -/
theorem colIdx_getD {c : String} :
    ∀ {hdr : List String} {i : Nat}, colIdx hdr c = some i → hdr.getD i "" = c := by
  intro hdr
  induction hdr with
  | nil => intro i h; exact absurd h (by simp [colIdx])
  | cons h t ih =>
      intro i hh
      by_cases he : h = c
      · simp only [colIdx, if_pos he, Option.some.injEq] at hh
        subst hh
        simpa using he
      · simp only [colIdx, if_neg he, Option.map_eq_some'] at hh
        obtain ⟨j, hj, rfl⟩ := hh
        simpa using ih hj

/-- Lookup fails exactly for absent column names. -/
theorem colIdx_eq_none_iff {c : String} :
    ∀ {hdr : List String}, colIdx hdr c = none ↔ c ∉ hdr := by
  intro hdr
  induction hdr with
  | nil => simp [colIdx]
  | cons h t ih =>
      by_cases he : h = c
      · simp [colIdx, if_pos he, he]
      · have he' : ¬c = h := fun hc => he hc.symm
        simp only [colIdx, if_neg he, Option.map_eq_none', ih, List.mem_cons]
        simp [he']

/-- Distinct names occupy distinct found indices. -/
theorem colIdx_ne {c1 c2 : String} {hdr : List String} {i j : Nat}
    (h1 : colIdx hdr c1 = some i) (h2 : colIdx hdr c2 = some j) (hc : c1 ≠ c2) :
    i ≠ j := by
  intro he
  exact hc (by rw [← colIdx_getD h1, he, colIdx_getD h2])

/-! ### Stage lemmas for the normalizer -/

/-- Re-parsing a cell in place leaves a coercion fixed point at that read. -/
theorem read_updateAt_parse (r : List Value) (i : Nat) :
    isTimeOrNa ((updateAt i parseTimestamp r).getD i .na) = true := by
  rcases Nat.lt_or_ge i r.length with h | h
  · rw [updateAt_getD_self parseTimestamp r i h]
    exact parse_isTimeOrNa _
  · rw [updateAt_of_ge parseTimestamp r i h, List.getD_eq_default _ _ h]
    rfl

/-- Parsing a column whose found index differs from `i` (or which is
absent) leaves column `i` unchanged. -/
theorem colCells_parseColumn_ne {i : Nat} (hdr : List String) (c : String)
    (rows : List (List Value)) (h : ∀ j, colIdx hdr c = some j → j ≠ i) :
    colCells i (parseColumn hdr c rows) = colCells i rows := by
  unfold parseColumn
  cases hcj : colIdx hdr c with
  | none => rfl
  | some j => exact colCells_map_updateAt_ne (fun he => h j hcj he.symm) _ rows

/-- Parsing a column whose name differs from the name found at `i` leaves
column `i` unchanged. -/
theorem colCells_parseColumn_ne_name {i : Nat} {hdr : List String} {c0 : String}
    (hc0 : colIdx hdr c0 = some i) (c : String) (hne : c ≠ c0)
    (rows : List (List Value)) :
    colCells i (parseColumn hdr c rows) = colCells i rows :=
  colCells_parseColumn_ne hdr c rows (fun _ hj => colIdx_ne hj hc0 hne)

/-- After parsing a found column, every read in it is a coercion fixed
point. -/
theorem parseColumn_fixed {hdr : List String} {c : String} {j : Nat}
    (hcj : colIdx hdr c = some j) (rows : List (List Value)) :
    ∀ v ∈ colCells j (parseColumn hdr c rows), isTimeOrNa v = true := by
  unfold parseColumn
  rw [hcj]
  intro v hv
  unfold colCells at hv
  rw [List.map_map] at hv
  obtain ⟨r, _, rfl⟩ := List.mem_map.1 hv
  exact read_updateAt_parse r j

/-- After the date-column pass, every read in a found date-like column is a
coercion fixed point. -/
theorem parseDateColumns_fixed {hdr : List String} {c : String} {j : Nat}
    (hc : c ∈ dateColumns) (hcj : colIdx hdr c = some j)
    (rows : List (List Value)) :
    ∀ v ∈ colCells j (parseDateColumns hdr rows), isTimeOrNa v = true := by
  have hstep : ∀ (c' : String), c' ≠ c → ∀ rs,
      colCells j (parseColumn hdr c' rs) = colCells j rs :=
    fun c' hne rs => colCells_parseColumn_ne_name hcj c' hne rs
  have hexp : parseDateColumns hdr rows =
      parseColumn hdr "dateLocal" (parseColumn hdr "date.utc" (parseColumn hdr "date"
        (parseColumn hdr "datetime" rows))) := rfl
  rw [hexp]
  simp only [dateColumns, List.mem_cons, List.not_mem_nil, or_false] at hc
  rcases hc with rfl | rfl | rfl | rfl
  · rw [hstep "dateLocal" (by decide), hstep "date.utc" (by decide),
      hstep "date" (by decide)]
    exact parseColumn_fixed hcj rows
  · rw [hstep "dateLocal" (by decide), hstep "date.utc" (by decide)]
    exact parseColumn_fixed hcj _
  · rw [hstep "dateLocal" (by decide)]
    exact parseColumn_fixed hcj _
  · exact parseColumn_fixed hcj _

/-- Imputation skips a column of coercion fixed points: a column of
timestamps is not numeric, and an all-missing column has a NaN mean. -/
theorem imputeColumn_of_fixed {i : Nat} (rows : List (List Value))
    (h : ∀ v ∈ colCells i rows, isTimeOrNa v = true) :
    imputeColumn i rows = rows := by
  have hpv : presentVals (colCells i rows) = [] := by
    unfold presentVals
    rw [List.filterMap_eq_nil_iff]
    intro v hv
    have := h v hv
    cases v <;> simp_all [isTimeOrNa]
  have hcm : colMean (colCells i rows) = none := by
    unfold colMean
    simp [hpv]
  unfold imputeColumn
  rw [hcm]
  split <;> rfl

/-- Imputation skips a column with no missing cell or no numeric cell. -/
theorem imputeColumn_of_guard {i : Nat} (rows : List (List Value))
    (h : (∀ v ∈ colCells i rows, isNaCell v = false) ∨
         (∀ v ∈ colCells i rows, isNumCell v = false)) :
    imputeColumn i rows = rows := by
  rcases h with h | h
  · have hna : (colCells i rows).any isNaCell = false := by
      rw [List.any_eq_false]
      intro v hv
      simp [h v hv]
    unfold imputeColumn
    simp [hna]
  · have hpv : presentVals (colCells i rows) = [] := by
      unfold presentVals
      rw [List.filterMap_eq_nil_iff]
      intro v hv
      have := h v hv
      cases v <;> simp_all [isNumCell]
    have hcm : colMean (colCells i rows) = none := by
      unfold colMean
      simp [hpv]
    unfold imputeColumn
    rw [hcm]
    split <;> rfl

/-- Imputing another column leaves column `i` unchanged. -/
theorem colCells_imputeColumn_ne {i j : Nat} (hij : i ≠ j)
    (rows : List (List Value)) :
    colCells i (imputeColumn j rows) = colCells i rows := by
  unfold imputeColumn
  split
  · cases colMean (colCells j rows) with
    | none => rfl
    | some m => exact colCells_map_updateAt_ne hij _ rows
  · rfl

/-- Fixed points of the coercion in a column survive the whole imputation
loop. -/
theorem foldl_impute_fixed {i : Nat} (l : List Nat) (rows : List (List Value))
    (h : ∀ v ∈ colCells i rows, isTimeOrNa v = true) :
    ∀ v ∈ colCells i (l.foldl (fun rs j => imputeColumn j rs) rows),
      isTimeOrNa v = true := by
  induction l generalizing rows with
  | nil => exact h
  | cons j l' ih =>
      simp only [List.foldl]
      refine ih (imputeColumn j rows) ?_
      by_cases hji : j = i
      · rw [hji, imputeColumn_of_fixed rows h]
        exact h
      · rw [colCells_imputeColumn_ne (fun he => hji he.symm) rows]
        exact h

/-- Unfolding of `clean_data` on non-empty input. -/
theorem clean_data_eq (df : DataFrame) (hne : dfEmpty df = false) :
    clean_data df =
      sortStep ⟨df.header,
        imputeAll df.header (parseDateColumns df.header (dedupStep df).rows)⟩ := by
  have hh : (dedupStep df).header = df.header := by
    unfold dedupStep
    cases colIdx df.header "datetime" with
    | none => rfl
    | some i =>
        by_cases hp : "parameter" ∈ df.header <;> simp [hp]
  unfold clean_data
  rw [hne]
  simp only [Bool.false_eq_true, if_false, hh]

/-- In the datetime-bearing branch, deduplicated rows read as coercion
fixed points in the datetime column. -/
theorem dedupStep_dt_fixed {df : DataFrame} {di : Nat}
    (hdi : colIdx df.header "datetime" = some di) :
    ∀ v ∈ colCells di (dedupStep df).rows, isTimeOrNa v = true := by
  unfold dedupStep
  rw [hdi]
  dsimp only
  intro v hv
  by_cases hp : "parameter" ∈ df.header
  · rw [if_pos hp] at hv
    unfold colCells at hv
    obtain ⟨r, hr, rfl⟩ := List.mem_map.1 hv
    have hr2 := mem_of_mem_dedupBy _ hr
    obtain ⟨r0, _, rfl⟩ := List.mem_map.1 hr2
    exact read_updateAt_parse r0 di
  · rw [if_neg hp] at hv
    unfold colCells at hv
    obtain ⟨r, hr, rfl⟩ := List.mem_map.1 hv
    have hr2 := mem_of_mem_dedupBy _ hr
    obtain ⟨r0, _, rfl⟩ := List.mem_map.1 hr2
    exact read_updateAt_parse r0 di

/-! ### Row-length preservation through the stages -/

/-- Parsing one column preserves every row length. -/
theorem parseColumn_lengths {hdr : List String} {c : String} {rows : List (List Value)}
    {n : Nat} (h : ∀ r ∈ rows, r.length = n) :
    ∀ r ∈ parseColumn hdr c rows, r.length = n := by
  unfold parseColumn
  cases colIdx hdr c with
  | none => exact h
  | some j =>
      intro r hr
      obtain ⟨r0, hr0, rfl⟩ := List.mem_map.1 hr
      rw [updateAt_length]
      exact h r0 hr0

/-- The date-column pass preserves every row length. -/
theorem parseDateColumns_lengths {hdr : List String} {rows : List (List Value)}
    {n : Nat} (h : ∀ r ∈ rows, r.length = n) :
    ∀ r ∈ parseDateColumns hdr rows, r.length = n :=
  parseColumn_lengths (parseColumn_lengths (parseColumn_lengths (parseColumn_lengths h)))

/-- Deduplication preserves every row length. -/
theorem dedupStep_lengths {df : DataFrame} {n : Nat}
    (h : ∀ r ∈ df.rows, r.length = n) :
    ∀ r ∈ (dedupStep df).rows, r.length = n := by
  unfold dedupStep
  cases colIdx df.header "datetime" with
  | none => exact h
  | some i =>
      dsimp only
      intro r hr
      by_cases hp : "parameter" ∈ df.header
      · rw [if_pos hp] at hr
        obtain ⟨r0, hr0, rfl⟩ := List.mem_map.1 (mem_of_mem_dedupBy _ hr)
        rw [updateAt_length]
        exact h r0 hr0
      · rw [if_neg hp] at hr
        obtain ⟨r0, hr0, rfl⟩ := List.mem_map.1 (mem_of_mem_dedupBy _ hr)
        rw [updateAt_length]
        exact h r0 hr0

/-- Imputing one column preserves every row length. -/
theorem imputeColumn_lengths {j : Nat} {rows : List (List Value)} {n : Nat}
    (h : ∀ r ∈ rows, r.length = n) :
    ∀ r ∈ imputeColumn j rows, r.length = n := by
  unfold imputeColumn
  split
  · cases colMean (colCells j rows) with
    | none => exact h
    | some m =>
        intro r hr
        obtain ⟨r0, hr0, rfl⟩ := List.mem_map.1 hr
        rw [updateAt_length]
        exact h r0 hr0
  · exact h

/-- The imputation loop preserves every row length. -/
theorem foldl_impute_lengths {n : Nat} (l : List Nat) (rows : List (List Value))
    (h : ∀ r ∈ rows, r.length = n) :
    ∀ r ∈ l.foldl (fun rs j => imputeColumn j rs) rows, r.length = n := by
  induction l generalizing rows with
  | nil => exact h
  | cons j l' ih => exact ih _ (imputeColumn_lengths h)

/-! ### Column characterization of the imputation loop -/

/-- Reading the imputed column on full-width rows gives the column
transformer `imputedCells`. -/
theorem colCells_imputeColumn_self {i : Nat} (rows : List (List Value))
    (h : ∀ r ∈ rows, i < r.length) :
    colCells i (imputeColumn i rows) = imputedCells (colCells i rows) := by
  unfold imputeColumn imputedCells
  split
  · cases colMean (colCells i rows) with
    | none => rfl
    | some m => exact colCells_map_updateAt_self (fillNa m) rows h
  · rfl

/-- Columns not named by any index of the loop list are untouched. -/
theorem colCells_foldl_impute_notmem {i : Nat} (l : List Nat)
    (rows : List (List Value)) (h : i ∉ l) :
    colCells i (l.foldl (fun rs j => imputeColumn j rs) rows) = colCells i rows := by
  induction l generalizing rows with
  | nil => rfl
  | cons j l' ih =>
      simp only [List.mem_cons, not_or] at h
      simp only [List.foldl]
      rw [ih _ h.2, colCells_imputeColumn_ne h.1 rows]

/-- Every row of the imputed list has the length of some source row. -/
theorem mem_imputeColumn_exists_length {j : Nat} {rows : List (List Value)} :
    ∀ r ∈ imputeColumn j rows, ∃ r0 ∈ rows, r.length = r0.length := by
  unfold imputeColumn
  split
  · cases colMean (colCells j rows) with
    | none => exact fun r hr => ⟨r, hr, rfl⟩
    | some m =>
        intro r hr
        obtain ⟨r0, hr0, rfl⟩ := List.mem_map.1 hr
        exact ⟨r0, hr0, updateAt_length _ _ _⟩
  · exact fun r hr => ⟨r, hr, rfl⟩

/-- Column `i` of the result of a duplicate-free imputation loop containing
`i` is the transformed column `i` of the input. -/
theorem colCells_foldl_impute (l : List Nat) (rows : List (List Value)) (i : Nat)
    (hmem : i ∈ l) (hnd : l.Nodup)
    (hlen : ∀ r ∈ rows, ∀ j ∈ l, j < r.length) :
    colCells i (l.foldl (fun rs j => imputeColumn j rs) rows) =
      imputedCells (colCells i rows) := by
  induction l generalizing rows with
  | nil => exact absurd hmem (List.not_mem_nil i)
  | cons j l' ih =>
      simp only [List.nodup_cons] at hnd
      simp only [List.foldl]
      by_cases hji : j = i
      · subst hji
        rw [colCells_foldl_impute_notmem l' _ hnd.1,
          colCells_imputeColumn_self rows
            (fun r hr => hlen r hr j (List.mem_cons_self _ _))]
      · have hmem' : i ∈ l' := by
          rcases List.mem_cons.1 hmem with h | h
          · exact absurd h.symm hji
          · exact h
        rw [ih _ hmem' hnd.2 ?_, colCells_imputeColumn_ne
          (fun he => hji he.symm) rows]
        intro r hr k hk
        obtain ⟨r0, hr0, hl0⟩ := mem_imputeColumn_exists_length r hr
        rw [hl0]
        exact hlen r0 hr0 k (List.mem_cons_of_mem _ hk)

/-- Column `i` of the full imputation stage on rectangular rows. -/
theorem colCells_imputeAll {hdr : List String} {rows : List (List Value)} {i : Nat}
    (hi : i < hdr.length) (hrect : ∀ r ∈ rows, r.length = hdr.length) :
    colCells i (imputeAll hdr rows) = imputedCells (colCells i rows) :=
  colCells_foldl_impute (List.range hdr.length) rows i (List.mem_range.2 hi)
    (List.nodup_range _)
    (fun r hr j hj => by rw [hrect r hr]; exact List.mem_range.1 hj)

/-! ### Arithmetic of mean imputation -/

/-- Reading `presentVals` through a leading present value. -/
theorem presentVals_cons_num (q : Rat) (cs : List Value) :
    presentVals (Value.num q :: cs) = q :: presentVals cs := rfl

/-- Reading `presentVals` through a leading missing value. -/
theorem presentVals_cons_na (cs : List Value) :
    presentVals (Value.na :: cs) = presentVals cs := rfl

/-- Reading `presentVals` through a leading string value. -/
theorem presentVals_cons_str (s : String) (cs : List Value) :
    presentVals (Value.str s :: cs) = presentVals cs := rfl

/-- Reading `presentVals` through a leading timestamp value. -/
theorem presentVals_cons_time (t : Int) (cs : List Value) :
    presentVals (Value.time t :: cs) = presentVals cs := rfl

/-- Reading `presentVals` through a leading object value. -/
theorem presentVals_cons_obj (a b : Option String) (cs : List Value) :
    presentVals (Value.obj a b :: cs) = presentVals cs := rfl

/-- Sum of the present values after filling missing entries with `m`. -/
theorem presentVals_fillNa_sum (m : Rat) (cells : List Value) :
    (presentVals (cells.map (fillNa m))).sum =
      (presentVals cells).sum + (cells.countP isNaCell : Rat) * m := by
  induction cells with
  | nil => simp [presentVals]
  | cons v cs ih =>
      cases v with
      | na =>
          show (m :: presentVals (cs.map (fillNa m))).sum = _
          rw [List.sum_cons, ih, presentVals_cons_na, List.countP_cons]
          simp [isNaCell]
          ring
      | num q =>
          show (q :: presentVals (cs.map (fillNa m))).sum = _
          rw [List.sum_cons, ih, presentVals_cons_num, List.sum_cons,
            List.countP_cons]
          simp [isNaCell]
          ring
      | str s =>
          show (presentVals (cs.map (fillNa m))).sum = _
          rw [ih, presentVals_cons_str, List.countP_cons]
          simp [isNaCell]
      | time t =>
          show (presentVals (cs.map (fillNa m))).sum = _
          rw [ih, presentVals_cons_time, List.countP_cons]
          simp [isNaCell]
      | obj a b =>
          show (presentVals (cs.map (fillNa m))).sum = _
          rw [ih, presentVals_cons_obj, List.countP_cons]
          simp [isNaCell]

/-- Count of the present values after filling missing entries with `m`. -/
theorem presentVals_fillNa_length (m : Rat) (cells : List Value) :
    (presentVals (cells.map (fillNa m))).length =
      (presentVals cells).length + cells.countP isNaCell := by
  induction cells with
  | nil => rfl
  | cons v cs ih =>
      cases v with
      | na =>
          show (m :: presentVals (cs.map (fillNa m))).length = _
          rw [List.length_cons, ih, presentVals_cons_na, List.countP_cons]
          simp [isNaCell]
          omega
      | num q =>
          show (q :: presentVals (cs.map (fillNa m))).length = _
          rw [List.length_cons, ih, presentVals_cons_num, List.length_cons,
            List.countP_cons]
          simp [isNaCell]
          omega
      | str s =>
          show (presentVals (cs.map (fillNa m))).length = _
          rw [ih, presentVals_cons_str, List.countP_cons]
          simp [isNaCell]
      | time t =>
          show (presentVals (cs.map (fillNa m))).length = _
          rw [ih, presentVals_cons_time, List.countP_cons]
          simp [isNaCell]
      | obj a b =>
          show (presentVals (cs.map (fillNa m))).length = _
          rw [ih, presentVals_cons_obj, List.countP_cons]
          simp [isNaCell]

/-- Filling a column with its own mean preserves the mean. -/
theorem colMean_map_fillNa {cells : List Value} {m : Rat}
    (hm : colMean cells = some m) :
    colMean (cells.map (fillNa m)) = some m := by
  unfold colMean at hm ⊢
  by_cases hpe : (presentVals cells).isEmpty
  · rw [if_pos hpe] at hm
    exact absurd hm (by simp)
  · rw [if_neg hpe] at hm
    have hm' : (presentVals cells).sum / ((presentVals cells).length : Rat) = m :=
      Option.some.inj hm
    have hL : (presentVals cells).length ≠ 0 := by
      intro hc
      exact hpe (by simpa [List.isEmpty_iff_length_eq_zero] using hc)
    have hLpos : 0 < (presentVals cells).length := Nat.pos_of_ne_zero hL
    have hlen := presentVals_fillNa_length m cells
    have hsum := presentVals_fillNa_sum m cells
    have hpe2 : ¬(presentVals (cells.map (fillNa m))).isEmpty = true := by
      rw [List.isEmpty_iff_length_eq_zero]
      omega
    rw [if_neg hpe2]
    refine congrArg some ?_
    rw [hsum, hlen]
    have hLQ : ((presentVals cells).length : Rat) ≠ 0 := by
      exact_mod_cast hL
    have hLkQ : (((presentVals cells).length + cells.countP isNaCell : Nat) : Rat) ≠ 0 := by
      have : 0 < (presentVals cells).length + cells.countP isNaCell := by omega
      exact_mod_cast Nat.pos_iff_ne_zero.1 this
    rw [← hm']
    push_cast
    field_simp
    ring

/-- Filling leaves no missing entry behind. -/
theorem fillNa_no_na (m : Rat) (cells : List Value) :
    (cells.map (fillNa m)).all (fun v => !(isNaCell v)) = true := by
  rw [List.all_eq_true]
  intro v hv
  obtain ⟨w, _, rfl⟩ := List.mem_map.1 hv
  cases w <;> simp [fillNa, isNaCell]

/-- Means are invariant under permutation of the column. -/
theorem colMean_perm {cells cells' : List Value} (h : cells.Perm cells') :
    colMean cells = colMean cells' := by
  have hp : (presentVals cells).Perm (presentVals cells') := h.filterMap _
  have hiff : (presentVals cells).isEmpty = (presentVals cells').isEmpty := by
    rw [Bool.eq_iff_iff, List.isEmpty_iff_length_eq_zero,
      List.isEmpty_iff_length_eq_zero, hp.length_eq]
  unfold colMean
  rw [hiff, hp.length_eq, hp.sum_eq]

/-! ### Empty-row propagation -/

/-- Parsing a column of an empty row list yields the empty row list. -/
theorem parseColumn_nil (hdr : List String) (c : String) :
    parseColumn hdr c [] = [] := by
  unfold parseColumn
  cases colIdx hdr c <;> rfl

/-- The date-column pass on an empty row list yields the empty row list. -/
theorem parseDateColumns_nil (hdr : List String) : parseDateColumns hdr [] = [] := by
  show parseColumn hdr "dateLocal" (parseColumn hdr "date.utc" (parseColumn hdr "date"
    (parseColumn hdr "datetime" []))) = []
  rw [parseColumn_nil, parseColumn_nil, parseColumn_nil, parseColumn_nil]

/-- Deduplication of an empty row list yields the empty row list. -/
theorem dedupStep_rows_nil {df : DataFrame} (h : df.rows = []) :
    (dedupStep df).rows = [] := by
  unfold dedupStep
  cases colIdx df.header "datetime" with
  | none => exact h
  | some i =>
      dsimp only
      rw [h]
      by_cases hp : "parameter" ∈ df.header <;> simp [hp, dedupBy]

/-! ### Claim C2: mean imputation -/

/-- C2 counterexample: in `dupNaDF` the `value` column is numeric with one
present and one missing value, yet after clean the column still has a
missing entry (the dedup step dropped the only present value, leaving an
all-missing column whose mean is NaN). -/
theorem c2_counterexample :
    isNumericCol (colCells 2 dupNaDF.rows) = true ∧
    (colCells 2 dupNaDF.rows).any isNaCell = true ∧
    (colCells 2 dupNaDF.rows).any isNumCell = true ∧
    clean_data dupNaDF =
      ⟨["datetime", "parameter", "value"], [[.time 1, .str "pm25", .na]]⟩ ∧
    (colCells 2 (clean_data dupNaDF).rows).any isNaCell = true := by
  decide

/-- C2 (amended): for every rectangular table and every column that — after
the dedup and timestamp-coercion stages — is numeric with at least one
missing and at least one present value, the cleaned column has no missing
entry and its mean equals the mean over the values present after
deduplication.  (The original claim referred to the values present in the
raw input; the counterexample shows deduplication can drop them.) -/
theorem c2_imputation_mean (df : DataFrame) (i : Nat)
    (hrect : Rect df) (hi : i < df.header.length)
    (hnum : isNumericCol
      (colCells i (parseDateColumns df.header (dedupStep df).rows)) = true)
    (hna : (colCells i (parseDateColumns df.header (dedupStep df).rows)).any
      isNaCell = true)
    (hpres : presentVals
      (colCells i (parseDateColumns df.header (dedupStep df).rows)) ≠ []) :
    (colCells i (clean_data df).rows).all (fun v => !(isNaCell v)) = true ∧
    colMean (colCells i (clean_data df).rows) =
      colMean (colCells i (parseDateColumns df.header (dedupStep df).rows)) := by
  have hrowsne : df.rows ≠ [] := by
    intro hc
    rw [dedupStep_rows_nil hc, parseDateColumns_nil] at hna
    exact absurd hna (by simp [colCells])
  have hne : dfEmpty df = false := by
    unfold dfEmpty
    cases hr : df.rows with
    | nil => exact absurd hr hrowsne
    | cons a l =>
        cases hh : df.header with
        | nil => rw [hh] at hi; exact absurd hi (by simp)
        | cons b m => rfl
  have hrect2 : ∀ r ∈ parseDateColumns df.header (dedupStep df).rows,
      r.length = df.header.length :=
    parseDateColumns_lengths (dedupStep_lengths hrect)
  have hcol : colCells i (imputeAll df.header
        (parseDateColumns df.header (dedupStep df).rows)) =
      imputedCells (colCells i (parseDateColumns df.header (dedupStep df).rows)) :=
    colCells_imputeAll hi hrect2
  have hpe : (presentVals
      (colCells i (parseDateColumns df.header (dedupStep df).rows))).isEmpty = false := by
    cases hl : presentVals (colCells i (parseDateColumns df.header (dedupStep df).rows)) with
    | nil => exact absurd hl hpres
    | cons a l => rfl
  obtain ⟨m, hm⟩ : ∃ m, colMean
      (colCells i (parseDateColumns df.header (dedupStep df).rows)) = some m := by
    unfold colMean
    rw [hpe]
    simp
  have himp : imputedCells (colCells i (parseDateColumns df.header (dedupStep df).rows)) =
      (colCells i (parseDateColumns df.header (dedupStep df).rows)).map (fillNa m) := by
    unfold imputedCells
    rw [if_pos (by rw [hnum, hna]; rfl), hm]
  have hall3 : (colCells i (imputeAll df.header
      (parseDateColumns df.header (dedupStep df).rows))).all
        (fun v => !(isNaCell v)) = true := by
    rw [hcol, himp]
    exact fillNa_no_na m _
  have hmean3 : colMean (colCells i (imputeAll df.header
      (parseDateColumns df.header (dedupStep df).rows))) =
      colMean (colCells i (parseDateColumns df.header (dedupStep df).rows)) := by
    rw [hcol, himp, colMean_map_fillNa hm, hm]
  rw [clean_data_eq df hne]
  unfold sortStep
  by_cases hdt : "datetime" ∈ df.header
  · rw [if_pos hdt]
    dsimp only
    have hccp : (colCells i (List.insertionSort (rowLE df.header) (imputeAll df.header
        (parseDateColumns df.header (dedupStep df).rows)))).Perm
        (colCells i (imputeAll df.header
          (parseDateColumns df.header (dedupStep df).rows))) := by
      unfold colCells
      exact (List.perm_insertionSort (rowLE df.header) _).map (fun r => r.getD i Value.na)
    constructor
    · rw [List.all_eq_true]
      intro v hv
      exact List.all_eq_true.1 hall3 v (hccp.mem_iff.1 hv)
    · rw [colMean_perm hccp, hmean3]
  · rw [if_neg hdt]
    dsimp only
    exact ⟨hall3, hmean3⟩

/-- C2 witness: the amended theorem applied to the spec scenario table
`value = [10.0, missing, 20.0]` (column index 2). -/
theorem c2_witness :
    (Rect meanDF ∧ 2 < meanDF.header.length ∧
     isNumericCol (colCells 2 (parseDateColumns meanDF.header (dedupStep meanDF).rows)) = true ∧
     (colCells 2 (parseDateColumns meanDF.header (dedupStep meanDF).rows)).any isNaCell = true ∧
     presentVals (colCells 2 (parseDateColumns meanDF.header (dedupStep meanDF).rows)) ≠ []) ∧
    ((colCells 2 (clean_data meanDF).rows).all (fun v => !(isNaCell v)) = true ∧
     colMean (colCells 2 (clean_data meanDF).rows) =
       colMean (colCells 2 (parseDateColumns meanDF.header (dedupStep meanDF).rows))) :=
  ⟨⟨by decide, by decide, by decide, by decide, by decide⟩,
   c2_imputation_mean meanDF 2 (by decide) (by decide) (by decide) (by decide) (by decide)⟩

/-! ### Claim C9: output ordering -/

/-- C9: on every non-empty input with a datetime column, the rows of the
clean output are sorted ascending by the coerced datetime cell, and every
row whose datetime is the missing marker comes after all rows with a
present timestamp. -/
theorem c9_sorted_output (df : DataFrame) (h1 : df.rows ≠ [])
    (h2 : "datetime" ∈ df.header) :
    List.Sorted (rowLE df.header) (clean_data df).rows ∧
    List.Pairwise (fun r1 r2 => getCell df.header r1 "datetime" = Value.na →
      getCell df.header r2 "datetime" = Value.na) (clean_data df).rows := by
  have hne : dfEmpty df = false := by
    unfold dfEmpty
    cases hrows : df.rows with
    | nil => exact absurd hrows h1
    | cons a l =>
        cases hhdr : df.header with
        | nil => rw [hhdr] at h2; exact absurd h2 (List.not_mem_nil _)
        | cons b m => rfl
  obtain ⟨di, hdi⟩ : ∃ di, colIdx df.header "datetime" = some di := by
    cases hcd : colIdx df.header "datetime" with
    | none => exact absurd h2 (colIdx_eq_none_iff.1 hcd)
    | some i => exact ⟨i, rfl⟩
  rw [clean_data_eq df hne]
  unfold sortStep
  rw [if_pos h2]
  dsimp only
  haveI := rowLE_total df.header
  haveI := rowLE_trans df.header
  set rows3 := imputeAll df.header (parseDateColumns df.header (dedupStep df).rows)
    with hrows3
  have hsorted : List.Sorted (rowLE df.header)
      (List.insertionSort (rowLE df.header) rows3) :=
    List.sorted_insertionSort (rowLE df.header) rows3
  refine ⟨hsorted, ?_⟩
  have hfix3 : ∀ v ∈ colCells di rows3, isTimeOrNa v = true := by
    rw [hrows3]
    exact foldl_impute_fixed _ _ (parseDateColumns_fixed (by decide) hdi _)
  have hfixs : ∀ r ∈ List.insertionSort (rowLE df.header) rows3,
      isTimeOrNa (r.getD di Value.na) = true := by
    intro r hr
    have hr3 : r ∈ rows3 :=
      (List.perm_insertionSort (rowLE df.header) rows3).mem_iff.1 hr
    exact hfix3 _ (List.mem_map_of_mem _ hr3)
  have hcell : ∀ r : List Value, getCell df.header r "datetime" = r.getD di Value.na := by
    intro r
    unfold getCell
    rw [hdi]
  refine hsorted.imp_of_mem ?_
  intro r1 r2 hm1 hm2 hle hna
  rw [hcell] at hna ⊢
  have hf2 := hfixs r2 hm2
  unfold rowLE at hle
  rw [hcell r1, hcell r2, hna] at hle
  cases hv2 : r2.getD di Value.na with
  | na => rfl
  | time t => rw [hv2] at hle; exact absurd hle (by simp [valLEb])
  | str s => rw [hv2] at hf2; exact absurd hf2 (by simp [isTimeOrNa])
  | num q => rw [hv2] at hf2; exact absurd hf2 (by simp [isTimeOrNa])
  | obj a b => rw [hv2] at hf2; exact absurd hf2 (by simp [isTimeOrNa])

/-- C9 witness: the theorem applied to a concrete out-of-order table with
one unparseable timestamp. -/
theorem c9_witness :
    (sortWitnessDF.rows ≠ [] ∧ "datetime" ∈ sortWitnessDF.header) ∧
    (List.Sorted (rowLE sortWitnessDF.header) (clean_data sortWitnessDF).rows ∧
     List.Pairwise (fun r1 r2 => getCell sortWitnessDF.header r1 "datetime" = Value.na →
       getCell sortWitnessDF.header r2 "datetime" = Value.na)
       (clean_data sortWitnessDF).rows) :=
  ⟨⟨by decide, by decide⟩, c9_sorted_output sortWitnessDF (by decide) (by decide)⟩

/-! ### Identity lemmas for a second normalizer pass -/

/-- Reading a parsed cell equals parsing the read cell, in or out of
range (out of range both sides are the missing marker). -/
theorem updateAt_parse_getD (r : List Value) (i : Nat) :
    (updateAt i parseTimestamp r).getD i .na = parseTimestamp (r.getD i .na) := by
  rcases Nat.lt_or_ge i r.length with h | h
  · exact updateAt_getD_self parseTimestamp r i h
  · rw [updateAt_of_ge parseTimestamp r i h, List.getD_eq_default _ _ h]
    rfl

/-- Column reads through a whole-column parse. -/
theorem colCells_map_updateAt_parse (i : Nat) (rows : List (List Value)) :
    colCells i (rows.map (updateAt i parseTimestamp)) =
      (colCells i rows).map parseTimestamp := by
  unfold colCells
  rw [List.map_map, List.map_map]
  exact List.map_congr_left (fun r _ => updateAt_parse_getD r i)

/-- A NaN mean means no value is present. -/
theorem colMean_none_presentVals {cells : List Value}
    (h : colMean cells = none) : presentVals cells = [] := by
  unfold colMean at h
  split at h
  · cases hl : presentVals cells with
    | nil => rfl
    | cons a l =>
        rename_i hemp
        rw [hl] at hemp
        exact absurd hemp (by simp)
  · exact absurd h (by simp)

/-- The column transformer is the identity on coercion fixed points. -/
theorem imputedCells_of_fixed {cells : List Value}
    (h : ∀ v ∈ cells, isTimeOrNa v = true) : imputedCells cells = cells := by
  have hpv : presentVals cells = [] := by
    unfold presentVals
    rw [List.filterMap_eq_nil_iff]
    intro v hv
    have := h v hv
    cases v <;> simp_all [isTimeOrNa]
  have hcm : colMean cells = none := by
    unfold colMean
    simp [hpv]
  unfold imputedCells
  rw [hcm]
  split <;> rfl

/-- The column transformer is the identity under the missing/numeric
guard. -/
theorem imputedCells_of_guard {cells : List Value}
    (h : (∀ v ∈ cells, isNaCell v = false) ∨ (∀ v ∈ cells, isNumCell v = false)) :
    imputedCells cells = cells := by
  rcases h with h | h
  · have hna : cells.any isNaCell = false := by
      rw [List.any_eq_false]
      intro v hv
      simp [h v hv]
    unfold imputedCells
    simp [hna]
  · have hpv : presentVals cells = [] := by
      unfold presentVals
      rw [List.filterMap_eq_nil_iff]
      intro v hv
      have := h v hv
      cases v <;> simp_all [isNumCell]
    have hcm : colMean cells = none := by
      unfold colMean
      simp [hpv]
    unfold imputedCells
    rw [hcm]
    split <;> rfl

/-- The output of the column transformer is always impute-trivial: running
the imputation again can change nothing. -/
theorem imputedCells_trivial (cells : List Value) :
    ImputeTrivial (imputedCells cells) := by
  unfold imputedCells
  split
  · cases hm : colMean cells with
    | none =>
        intro _ _
        exact colMean_none_presentVals hm
    | some m =>
        intro _ hna
        exfalso
        have hnn := fillNa_no_na m cells
        rw [List.all_eq_true] at hnn
        rw [List.any_eq_true] at hna
        obtain ⟨v, hv, hvna⟩ := hna
        have := hnn v hv
        simp [hvna] at this
  · rename_i hc
    intro hnum hna
    exact absurd (by rw [hnum, hna]; rfl) hc

/-- Impute-triviality is invariant under permutation of the column. -/
theorem ImputeTrivial_perm {cells cells' : List Value} (hp : cells.Perm cells')
    (ht : ImputeTrivial cells) : ImputeTrivial cells' := by
  intro hnum hna
  have hnum0 : isNumericCol cells = true := by
    unfold isNumericCol at hnum ⊢
    rw [List.all_eq_true] at hnum ⊢
    exact fun v hv => hnum v (hp.mem_iff.1 hv)
  have hna0 : cells.any isNaCell = true := by
    rw [List.any_eq_true] at hna ⊢
    obtain ⟨v, hv, hvp⟩ := hna
    exact ⟨v, hp.mem_iff.2 hv, hvp⟩
  have h0 := ht hnum0 hna0
  have hpv : (presentVals cells).Perm (presentVals cells') := hp.filterMap _
  rw [h0] at hpv
  exact hpv.symm.eq_nil

/-- The imputation skips an impute-trivial column. -/
theorem imputeColumn_of_trivial {i : Nat} {rows : List (List Value)}
    (h : ImputeTrivial (colCells i rows)) : imputeColumn i rows = rows := by
  unfold imputeColumn
  by_cases hc : (isNumericCol (colCells i rows) && (colCells i rows).any isNaCell) = true
  · rw [if_pos hc]
    rw [Bool.and_eq_true] at hc
    have hpv := h hc.1 hc.2
    have hcm : colMean (colCells i rows) = none := by
      unfold colMean
      simp [hpv]
    rw [hcm]
  · rw [if_neg hc]

/-- A loop of skipped imputations is the identity. -/
theorem foldl_impute_eq_self (l : List Nat) (rows : List (List Value))
    (h : ∀ j ∈ l, imputeColumn j rows = rows) :
    l.foldl (fun rs j => imputeColumn j rs) rows = rows := by
  induction l with
  | nil => rfl
  | cons j l' ih =>
      simp only [List.foldl]
      rw [h j (List.mem_cons_self _ _)]
      exact ih (fun k hk => h k (List.mem_cons_of_mem _ hk))

/-- Parsing a column of coercion fixed points changes nothing. -/
theorem parseColumn_of_fixed {hdr : List String} {c : String} {j : Nat}
    (hcj : colIdx hdr c = some j) (rows : List (List Value))
    (h : ∀ v ∈ colCells j rows, isTimeOrNa v = true) :
    parseColumn hdr c rows = rows := by
  unfold parseColumn
  rw [hcj]
  dsimp only
  have hmap : rows.map (updateAt j parseTimestamp) = rows.map id := by
    refine List.map_congr_left ?_
    intro r hr
    refine updateAt_of_fix parseTimestamp r j ?_
    exact isTimeOrNa_fix (h _ (List.mem_map_of_mem (fun r0 => r0.getD j Value.na) hr))
  rw [hmap, List.map_id]

/-- The date-column pass changes nothing when every found date-like column
holds coercion fixed points. -/
theorem parseDateColumns_of_fixed {hdr : List String} (rows : List (List Value))
    (h : ∀ c ∈ dateColumns, ∀ j, colIdx hdr c = some j →
      ∀ v ∈ colCells j rows, isTimeOrNa v = true) :
    parseDateColumns hdr rows = rows := by
  have hone : ∀ (c : String), c ∈ dateColumns → parseColumn hdr c rows = rows := by
    intro c hc
    cases hcj : colIdx hdr c with
    | none => unfold parseColumn; rw [hcj]
    | some j => exact parseColumn_of_fixed hcj rows (h c hc j hcj)
  show parseColumn hdr "dateLocal" (parseColumn hdr "date.utc" (parseColumn hdr "date"
    (parseColumn hdr "datetime" rows))) = rows
  rw [hone "datetime" (by decide), hone "date" (by decide),
    hone "date.utc" (by decide), hone "dateLocal" (by decide)]

/-- List lengths through one column parse. -/
theorem parseColumn_list_length (hdr : List String) (c : String)
    (rows : List (List Value)) :
    (parseColumn hdr c rows).length = rows.length := by
  unfold parseColumn
  cases colIdx hdr c <;> simp

/-- List lengths through the date-column pass. -/
theorem parseDateColumns_list_length (hdr : List String)
    (rows : List (List Value)) :
    (parseDateColumns hdr rows).length = rows.length := by
  show (parseColumn hdr "dateLocal" (parseColumn hdr "date.utc" (parseColumn hdr "date"
    (parseColumn hdr "datetime" rows)))).length = rows.length
  rw [parseColumn_list_length, parseColumn_list_length, parseColumn_list_length,
    parseColumn_list_length]

/-- List lengths through one column imputation. -/
theorem imputeColumn_list_length (j : Nat) (rows : List (List Value)) :
    (imputeColumn j rows).length = rows.length := by
  unfold imputeColumn
  split
  · cases colMean (colCells j rows) <;> simp
  · rfl

/-- List lengths through the imputation loop. -/
theorem foldl_impute_list_length (l : List Nat) (rows : List (List Value)) :
    (l.foldl (fun rs j => imputeColumn j rs) rows).length = rows.length := by
  induction l generalizing rows with
  | nil => rfl
  | cons j l' ih =>
      simp only [List.foldl]
      rw [ih, imputeColumn_list_length]

/-- Deduplication keeps at least the first row. -/
theorem dedupStep_rows_ne {df : DataFrame} (h : df.rows ≠ []) :
    (dedupStep df).rows ≠ [] := by
  unfold dedupStep
  cases colIdx df.header "datetime" with
  | none => exact h
  | some i =>
      dsimp only
      cases hr : df.rows with
      | nil => exact absurd hr h
      | cons r rs =>
          by_cases hp : "parameter" ∈ df.header <;> simp [hp, dedupBy]

/-- Header preservation through clean. -/
theorem clean_data_header (df : DataFrame) : (clean_data df).header = df.header := by
  by_cases hne : dfEmpty df = false
  · rw [clean_data_eq df hne]
    unfold sortStep
    by_cases hdt : "datetime" ∈ df.header
    · rw [if_pos hdt]
    · rw [if_neg hdt]
  · unfold clean_data
    rw [Bool.not_eq_false] at hne
    rw [hne]
    simp

/-! ### Dedup-key preservation -/

/-- The two-component dedup key list is the zip of the datetime and
parameter columns. -/
theorem map_key2_zip {hdr : List String} {pj : Nat} (di : Nat)
    (hpj : colIdx hdr "parameter" = some pj) (rows : List (List Value)) :
    rows.map (fun r => (r.getD di Value.na, getCell hdr r "parameter")) =
      (colCells di rows).zip (colCells pj rows) := by
  unfold colCells
  rw [List.zip_map']
  refine List.map_congr_left ?_
  intro r _
  unfold getCell
  rw [hpj]

/-- The date-column pass leaves the parameter column unchanged. -/
theorem colCells_parseDateColumns_param {hdr : List String} {pj : Nat}
    (hpj : colIdx hdr "parameter" = some pj) (rows : List (List Value)) :
    colCells pj (parseDateColumns hdr rows) = colCells pj rows := by
  show colCells pj (parseColumn hdr "dateLocal" (parseColumn hdr "date.utc"
    (parseColumn hdr "date" (parseColumn hdr "datetime" rows)))) = colCells pj rows
  rw [colCells_parseColumn_ne_name hpj "dateLocal" (by decide),
    colCells_parseColumn_ne_name hpj "date.utc" (by decide),
    colCells_parseColumn_ne_name hpj "date" (by decide),
    colCells_parseColumn_ne_name hpj "datetime" (by decide)]

/-- The date-column pass leaves an already-coerced datetime column
unchanged. -/
theorem colCells_parseDateColumns_dt {hdr : List String} {di : Nat}
    (hdi : colIdx hdr "datetime" = some di) (rows : List (List Value))
    (hfix : ∀ v ∈ colCells di rows, isTimeOrNa v = true) :
    colCells di (parseDateColumns hdr rows) = colCells di rows := by
  show colCells di (parseColumn hdr "dateLocal" (parseColumn hdr "date.utc"
    (parseColumn hdr "date" (parseColumn hdr "datetime" rows)))) = colCells di rows
  rw [parseColumn_of_fixed hdi rows hfix,
    colCells_parseColumn_ne_name hdi "dateLocal" (by decide),
    colCells_parseColumn_ne_name hdi "date.utc" (by decide),
    colCells_parseColumn_ne_name hdi "date" (by decide)]

/-- Every parameter cell surviving deduplication is a parameter cell of the
input. -/
theorem colCells_dedupStep_param_sub {df : DataFrame} {di pj : Nat}
    (hdi : colIdx df.header "datetime" = some di) (hne : pj ≠ di) :
    ∀ v ∈ colCells pj (dedupStep df).rows, v ∈ colCells pj df.rows := by
  unfold dedupStep
  rw [hdi]
  dsimp only
  intro v hv
  by_cases hp : "parameter" ∈ df.header
  · rw [if_pos hp] at hv
    obtain ⟨r, hr, rfl⟩ := List.mem_map.1 hv
    obtain ⟨r0, hr0, rfl⟩ := List.mem_map.1 (mem_of_mem_dedupBy _ hr)
    rw [updateAt_getD_ne parseTimestamp r0 pj di hne]
    exact List.mem_map_of_mem _ hr0
  · rw [if_neg hp] at hv
    obtain ⟨r, hr, rfl⟩ := List.mem_map.1 hv
    obtain ⟨r0, hr0, rfl⟩ := List.mem_map.1 (mem_of_mem_dedupBy _ hr)
    rw [updateAt_getD_ne parseTimestamp r0 pj di hne]
    exact List.mem_map_of_mem _ hr0

/-- Dedup keys of the two-component branch are pairwise distinct. -/
theorem dedupStep_keys_nodup2 {df : DataFrame} {di : Nat}
    (hdi : colIdx df.header "datetime" = some di) (hp : "parameter" ∈ df.header) :
    ((dedupStep df).rows.map
      (fun r => (r.getD di Value.na, getCell df.header r "parameter"))).Nodup := by
  unfold dedupStep
  rw [hdi]
  dsimp only
  rw [if_pos hp]
  exact (dedupBy_keys_nodup _ _ _).1

/-- Dedup keys of the datetime-only branch are pairwise distinct. -/
theorem dedupStep_keys_nodup1 {df : DataFrame} {di : Nat}
    (hdi : colIdx df.header "datetime" = some di) (hp : "parameter" ∉ df.header) :
    ((dedupStep df).rows.map (fun r => r.getD di Value.na)).Nodup := by
  unfold dedupStep
  rw [hdi]
  dsimp only
  rw [if_neg hp]
  exact (dedupBy_keys_nodup _ _ _).1

/-! ### A fixed point of the normalizer -/

/-- Tables on which every clean stage is a no-op are fixed points of
clean: non-empty, date-like columns already coerced, every column
impute-trivial, dedup keys pairwise distinct, rows already sorted. -/
theorem clean_data_fixed_point (d : DataFrame)
    (hrowsne : d.rows ≠ [])
    (hhdrne : d.header ≠ [])
    (hfixdate : ∀ c ∈ dateColumns, ∀ j, colIdx d.header c = some j →
      ∀ v ∈ colCells j d.rows, isTimeOrNa v = true)
    (htriv : ∀ i, i < d.header.length → ImputeTrivial (colCells i d.rows))
    (hkeys2 : ∀ di, colIdx d.header "datetime" = some di → "parameter" ∈ d.header →
      (d.rows.map (fun r => (r.getD di Value.na, getCell d.header r "parameter"))).Nodup)
    (hkeys1 : ∀ di, colIdx d.header "datetime" = some di → "parameter" ∉ d.header →
      (d.rows.map (fun r => r.getD di Value.na)).Nodup)
    (hsorted : "datetime" ∈ d.header → List.Sorted (rowLE d.header) d.rows) :
    clean_data d = d := by
  have hne : dfEmpty d = false := by
    unfold dfEmpty
    cases hr : d.rows with
    | nil => exact absurd hr hrowsne
    | cons a l =>
        cases hh : d.header with
        | nil => exact absurd hh hhdrne
        | cons b m => rfl
  rw [clean_data_eq d hne]
  have hded : dedupStep d = d := by
    unfold dedupStep
    cases hdi : colIdx d.header "datetime" with
    | none => rfl
    | some di =>
        dsimp only
        have hfixdt := hfixdate "datetime" (by decide) di hdi
        have hparsed : d.rows.map (updateAt di parseTimestamp) = d.rows := by
          rw [show d.rows.map (updateAt di parseTimestamp) = d.rows.map id from
            List.map_congr_left (fun r hr => updateAt_of_fix _ _ _
              (isTimeOrNa_fix (hfixdt _
                (List.mem_map_of_mem (fun r0 => r0.getD di Value.na) hr)))),
            List.map_id]
        by_cases hp : "parameter" ∈ d.header
        · rw [if_pos hp, hparsed,
            dedupBy_eq_self _ _ _ (hkeys2 di hdi hp) (by simp)]
        · rw [if_neg hp, hparsed,
            dedupBy_eq_self _ _ _ (hkeys1 di hdi hp) (by simp)]
  rw [hded]
  rw [parseDateColumns_of_fixed d.rows hfixdate]
  have himp : imputeAll d.header d.rows = d.rows :=
    foldl_impute_eq_self (List.range d.header.length) d.rows
      (fun j hj => imputeColumn_of_trivial (htriv j (List.mem_range.1 hj)))
  rw [himp]
  unfold sortStep
  by_cases hdt : "datetime" ∈ d.header
  · rw [if_pos hdt]
    dsimp only
    rw [(hsorted hdt).insertionSort_eq]
  · rw [if_neg hdt]

/-! ### Claim C8: idempotence -/

/-- Evaluation of the first clean on the C8 counterexample input: both rows
survive deduplication (their keys differ on the missing parameter) and the
missing parameter is imputed to the column mean 5. -/
theorem clean_numParamDF :
    clean_data numParamDF =
      ⟨["datetime", "parameter", "value"],
       [[.time 0, .num 5, .num 1], [.time 0, .num 5, .num 2]]⟩ := by
  rw [clean_data_eq numParamDF (by decide)]
  have hR : parseDateColumns numParamDF.header (dedupStep numParamDF).rows =
      [[Value.time 0, Value.num 5, Value.num 1],
       [Value.time 0, Value.na, Value.num 2]] := by
    decide
  rw [hR]
  have hcc : colCells 1 [[Value.time 0, Value.num 5, Value.num 1],
      [Value.time 0, Value.na, Value.num 2]] = [Value.num 5, Value.na] := by
    decide
  have hpv : presentVals [Value.num 5, Value.na] = [5] := rfl
  have hm : colMean [Value.num 5, Value.na] = some 5 := by
    unfold colMean
    rw [hpv]
    norm_num
  have h1 : imputeColumn 1 [[Value.time 0, Value.num 5, Value.num 1],
        [Value.time 0, Value.na, Value.num 2]] =
      [[Value.time 0, Value.num 5, Value.num 1],
       [Value.time 0, Value.num 5, Value.num 2]] := by
    unfold imputeColumn
    rw [hcc, hm]
    rw [if_pos (by decide)]
    decide
  have himp : imputeAll numParamDF.header
      [[Value.time 0, Value.num 5, Value.num 1],
       [Value.time 0, Value.na, Value.num 2]] =
      [[Value.time 0, Value.num 5, Value.num 1],
       [Value.time 0, Value.num 5, Value.num 2]] := by
    show imputeColumn 2 (imputeColumn 1 (imputeColumn 0
      [[Value.time 0, Value.num 5, Value.num 1],
       [Value.time 0, Value.na, Value.num 2]])) = _
    rw [show imputeColumn 0 [[Value.time 0, Value.num 5, Value.num 1],
        [Value.time 0, Value.na, Value.num 2]] =
        [[Value.time 0, Value.num 5, Value.num 1],
         [Value.time 0, Value.na, Value.num 2]] from by decide, h1]
    decide
  rw [himp]
  decide

/-- C8 counterexample: a numeric parameter column with a missing entry.
The first clean keeps both rows (their keys differ on the missing
parameter), then mean imputation rewrites the missing parameter to the
column mean, making the two keys collide; the second clean drops a row. -/
theorem c8_counterexample :
    clean_data (clean_data numParamDF) ≠ clean_data numParamDF := by
  rw [clean_numParamDF]
  decide

/-- C8 (amended): clean is idempotent on every rectangular table whose
parameter column (when present) has no missing cell or no numeric cell —
the guard under which mean imputation cannot rewrite dedup keys.  The
counterexample shows the guard is necessary. -/
theorem c8_idempotent (df : DataFrame) (hrect : Rect df)
    (hguard : paramImputeSafe df) :
    clean_data (clean_data df) = clean_data df := by
  by_cases hne : dfEmpty df = false
  · have hrne : df.rows ≠ [] ∧ df.header ≠ [] := by
      unfold dfEmpty at hne
      rw [Bool.or_eq_false_iff] at hne
      constructor
      · intro hc; rw [hc] at hne; exact absurd hne.1 (by simp)
      · intro hc; rw [hc] at hne; exact absurd hne.2 (by simp)
    have hrect1 : ∀ r ∈ (dedupStep df).rows, r.length = df.header.length :=
      dedupStep_lengths hrect
    have hrect2 : ∀ r ∈ parseDateColumns df.header (dedupStep df).rows,
        r.length = df.header.length := parseDateColumns_lengths hrect1
    have hpermrows : (clean_data df).rows.Perm
        (imputeAll df.header (parseDateColumns df.header (dedupStep df).rows)) := by
      rw [clean_data_eq df hne]
      unfold sortStep
      by_cases hdt : "datetime" ∈ df.header
      · rw [if_pos hdt]
        exact List.perm_insertionSort _ _
      · rw [if_neg hdt]
    have hpermcol : ∀ i, (colCells i (clean_data df).rows).Perm
        (colCells i (imputeAll df.header
          (parseDateColumns df.header (dedupStep df).rows))) := by
      intro i
      unfold colCells
      exact hpermrows.map _
    refine clean_data_fixed_point (clean_data df) ?_ ?_ ?_ ?_ ?_ ?_ ?_
    · -- non-empty rows
      have hlen : (clean_data df).rows.length = (dedupStep df).rows.length := by
        rw [hpermrows.length_eq,
          show (imputeAll df.header (parseDateColumns df.header (dedupStep df).rows)).length
            = (parseDateColumns df.header (dedupStep df).rows).length from
            foldl_impute_list_length _ _,
          parseDateColumns_list_length]
      intro hcon
      rw [hcon] at hlen
      have h1 := dedupStep_rows_ne hrne.1
      cases hd : (dedupStep df).rows with
      | nil => exact absurd hd h1
      | cons a l =>
          rw [hd] at hlen
          exact absurd hlen.symm (by simp)
    · -- non-empty header
      rw [clean_data_header]
      exact hrne.2
    · -- date columns already coerced
      intro c hc j hcj v hv
      rw [clean_data_header] at hcj
      exact foldl_impute_fixed (List.range df.header.length) _
        (parseDateColumns_fixed hc hcj (dedupStep df).rows) v ((hpermcol j).mem_iff.1 hv)
    · -- impute-trivial columns
      intro i hi
      rw [clean_data_header] at hi
      refine ImputeTrivial_perm (hpermcol i).symm ?_
      rw [colCells_imputeAll hi hrect2]
      exact imputedCells_trivial _
    · -- two-component dedup keys distinct
      intro di hdi hp
      rw [clean_data_header] at hdi hp ⊢
      obtain ⟨pj, hpj⟩ : ∃ pj, colIdx df.header "parameter" = some pj := by
        cases hcp : colIdx df.header "parameter" with
        | none => exact absurd hp (colIdx_eq_none_iff.1 hcp)
        | some p => exact ⟨p, rfl⟩
      have hgc : (∀ v ∈ colCells pj df.rows, isNaCell v = false) ∨
          (∀ v ∈ colCells pj df.rows, isNumCell v = false) := by
        rcases hguard hp with h | h
        · left
          intro v hv
          obtain ⟨r, hr, rfl⟩ := List.mem_map.1 hv
          have hgg := h r hr
          unfold getCell at hgg
          rw [hpj] at hgg
          exact hgg
        · right
          intro v hv
          obtain ⟨r, hr, rfl⟩ := List.mem_map.1 hv
          have hgg := h r hr
          unfold getCell at hgg
          rw [hpj] at hgg
          exact hgg
      have hnedpj : pj ≠ di := colIdx_ne hpj hdi (by decide)
      have hg1 : (∀ v ∈ colCells pj (dedupStep df).rows, isNaCell v = false) ∨
          (∀ v ∈ colCells pj (dedupStep df).rows, isNumCell v = false) := by
        rcases hgc with h | h
        · exact Or.inl (fun v hv => h v (colCells_dedupStep_param_sub hdi hnedpj v hv))
        · exact Or.inr (fun v hv => h v (colCells_dedupStep_param_sub hdi hnedpj v hv))
      have hg2 : (∀ v ∈ colCells pj (parseDateColumns df.header (dedupStep df).rows),
            isNaCell v = false) ∨
          (∀ v ∈ colCells pj (parseDateColumns df.header (dedupStep df).rows),
            isNumCell v = false) := by
        rw [colCells_parseDateColumns_param hpj]
        exact hg1
      have hfixdt2 : ∀ v ∈ colCells di (parseDateColumns df.header (dedupStep df).rows),
          isTimeOrNa v = true :=
        parseDateColumns_fixed (by decide) hdi _
      have hc3dt : colCells di (imputeAll df.header
            (parseDateColumns df.header (dedupStep df).rows)) =
          colCells di (parseDateColumns df.header (dedupStep df).rows) := by
        rw [colCells_imputeAll (colIdx_lt hdi) hrect2]
        exact imputedCells_of_fixed hfixdt2
      have hc3pj : colCells pj (imputeAll df.header
            (parseDateColumns df.header (dedupStep df).rows)) =
          colCells pj (parseDateColumns df.header (dedupStep df).rows) := by
        rw [colCells_imputeAll (colIdx_lt hpj) hrect2]
        exact imputedCells_of_guard hg2
      have hc2dt : colCells di (parseDateColumns df.header (dedupStep df).rows) =
          colCells di (dedupStep df).rows :=
        colCells_parseDateColumns_dt hdi _ (dedupStep_dt_fixed hdi)
      have hc2pj : colCells pj (parseDateColumns df.header (dedupStep df).rows) =
          colCells pj (dedupStep df).rows :=
        colCells_parseDateColumns_param hpj _
      have hp3 := hpermrows.map
        (fun r => (r.getD di Value.na, getCell df.header r "parameter"))
      have hE : (imputeAll df.header (parseDateColumns df.header (dedupStep df).rows)).map
            (fun r => (r.getD di Value.na, getCell df.header r "parameter")) =
          ((dedupStep df).rows).map
            (fun r => (r.getD di Value.na, getCell df.header r "parameter")) := by
        rw [map_key2_zip di hpj
            (imputeAll df.header (parseDateColumns df.header (dedupStep df).rows)),
          hc3dt, hc3pj, hc2dt, hc2pj,
          ← map_key2_zip di hpj (dedupStep df).rows]
      rw [hE] at hp3
      exact hp3.nodup_iff.2 (dedupStep_keys_nodup2 hdi hp)
    · -- datetime-only dedup keys distinct
      intro di hdi hp
      rw [clean_data_header] at hdi hp
      have hfixdt2 : ∀ v ∈ colCells di (parseDateColumns df.header (dedupStep df).rows),
          isTimeOrNa v = true :=
        parseDateColumns_fixed (by decide) hdi _
      have hc3dt : colCells di (imputeAll df.header
            (parseDateColumns df.header (dedupStep df).rows)) =
          colCells di (parseDateColumns df.header (dedupStep df).rows) := by
        rw [colCells_imputeAll (colIdx_lt hdi) hrect2]
        exact imputedCells_of_fixed hfixdt2
      have hc2dt : colCells di (parseDateColumns df.header (dedupStep df).rows) =
          colCells di (dedupStep df).rows :=
        colCells_parseDateColumns_dt hdi _ (dedupStep_dt_fixed hdi)
      have hp3 : (colCells di (clean_data df).rows).Perm
          (colCells di (dedupStep df).rows) := by
        rw [← hc2dt, ← hc3dt]
        exact hpermcol di
      exact hp3.nodup_iff.2 (dedupStep_keys_nodup1 hdi hp)
    · -- already sorted
      intro hdt
      rw [clean_data_header] at hdt
      have hy : (clean_data df).rows = List.insertionSort (rowLE df.header)
          (imputeAll df.header (parseDateColumns df.header (dedupStep df).rows)) := by
        rw [clean_data_eq df hne]
        unfold sortStep
        rw [if_pos hdt]
      rw [clean_data_header, hy]
      haveI := rowLE_total df.header
      haveI := rowLE_trans df.header
      exact List.sorted_insertionSort _ _
  · rw [Bool.not_eq_false] at hne
    have hdf : clean_data df = df := by
      unfold clean_data
      rw [hne]
      simp
    rw [hdf, hdf]

/-- C8 witness: the theorem applied to a concrete table with duplicates and
a string parameter column (guard satisfied). -/
theorem c8_witness :
    (Rect dupDF ∧ paramImputeSafe dupDF) ∧
    clean_data (clean_data dupDF) = clean_data dupDF :=
  ⟨⟨by decide, by decide⟩, c8_idempotent dupDF (by decide) (by decide)⟩

/-! ### Row tracking through the stages (for first-occurrence claims) -/

/-- One column parse as a row-wise map. -/
theorem parseColumn_eq_map (hdr : List String) (c : String)
    (rows : List (List Value)) :
    parseColumn hdr c rows = rows.map (parseCellFun hdr c) := by
  unfold parseColumn parseCellFun
  cases colIdx hdr c with
  | some i => rfl
  | none => exact (List.map_id rows).symm

/-- The date-column pass as a row-wise map. -/
theorem parseDateColumns_eq_map (hdr : List String) (rows : List (List Value)) :
    parseDateColumns hdr rows = rows.map (fun r =>
      parseCellFun hdr "dateLocal" (parseCellFun hdr "date.utc"
        (parseCellFun hdr "date" (parseCellFun hdr "datetime" r)))) := by
  show parseColumn hdr "dateLocal" (parseColumn hdr "date.utc" (parseColumn hdr "date"
    (parseColumn hdr "datetime" rows))) = _
  rw [parseColumn_eq_map, parseColumn_eq_map, parseColumn_eq_map, parseColumn_eq_map,
    List.map_map, List.map_map, List.map_map]
  rfl

/-- The per-row parse action leaves reads at other indices unchanged. -/
theorem parseCellFun_getD (hdr : List String) (c : String) (r : List Value)
    (j : Nat) (h : ∀ jc, colIdx hdr c = some jc → jc ≠ j) :
    (parseCellFun hdr c r).getD j Value.na = r.getD j Value.na := by
  unfold parseCellFun
  cases hc : colIdx hdr c with
  | none => rfl
  | some jc => exact updateAt_getD_ne parseTimestamp r j jc (fun he => h jc hc he.symm)

/-- The per-row parse action at its own index is the coercion of the read. -/
theorem parseCellFun_self (hdr : List String) (c : String) (r : List Value)
    {j : Nat} (h : colIdx hdr c = some j) :
    (parseCellFun hdr c r).getD j Value.na = parseTimestamp (r.getD j Value.na) := by
  unfold parseCellFun
  rw [h]
  exact updateAt_parse_getD r j

/-- One imputation is the identity or a whole-column fill. -/
theorem imputeColumn_cases (j : Nat) (rows : List (List Value)) :
    imputeColumn j rows = rows ∨
    ∃ m, imputeColumn j rows = rows.map (updateAt j (fillNa m)) := by
  unfold imputeColumn
  split
  · cases colMean (colCells j rows) with
    | none => exact Or.inl rfl
    | some m => exact Or.inr ⟨m, rfl⟩
  · exact Or.inl rfl

/-- A whole-column fill changes a read only when the read was missing. -/
theorem updateAt_fillNa_getD (m : Rat) (r : List Value) (j j' : Nat) :
    (updateAt j (fillNa m) r).getD j' Value.na = r.getD j' Value.na ∨
      r.getD j' Value.na = Value.na := by
  by_cases hjj : j' = j
  · subst hjj
    rcases Nat.lt_or_ge j' r.length with h | h
    · rw [updateAt_getD_self _ _ _ h]
      cases hv : r.getD j' Value.na with
      | na => exact Or.inr rfl
      | str s => exact Or.inl rfl
      | num q => exact Or.inl rfl
      | time t => exact Or.inl rfl
      | obj a b => exact Or.inl rfl
    · rw [updateAt_of_ge _ _ _ h]
      exact Or.inl rfl
  · exact Or.inl (updateAt_getD_ne _ _ _ _ hjj)

/-- The whole imputation loop is a row-wise map that changes a read only
when the read was missing. -/
theorem foldl_impute_exists_map (l : List Nat) (rows : List (List Value)) :
    ∃ g : List Value → List Value,
      l.foldl (fun rs j => imputeColumn j rs) rows = rows.map g ∧
      ∀ r j, (g r).getD j Value.na = r.getD j Value.na ∨
        r.getD j Value.na = Value.na := by
  induction l generalizing rows with
  | nil => exact ⟨id, (List.map_id rows).symm, fun r j => Or.inl rfl⟩
  | cons j l' ih =>
      simp only [List.foldl]
      rcases imputeColumn_cases j rows with h | ⟨m, h⟩
      · rw [h]
        exact ih rows
      · rw [h]
        obtain ⟨g', hg', hP⟩ := ih (rows.map (updateAt j (fillNa m)))
        refine ⟨g' ∘ updateAt j (fillNa m), ?_, ?_⟩
        · rw [hg', List.map_map]
        · intro r j'
          rcases hP (updateAt j (fillNa m) r) j' with h1 | h1
          · rcases updateAt_fillNa_getD m r j j' with h2 | h2
            · exact Or.inl (h1.trans h2)
            · exact Or.inr h2
          · rcases updateAt_fillNa_getD m r j j' with h2 | h2
            · exact Or.inr (h2 ▸ h1)
            · exact Or.inr h2

/-- Equal maps over a list agree on its members. -/
theorem map_eq_map_mem {α β : Type} (f g : α → β) :
    ∀ (l : List α), l.map f = l.map g → ∀ x ∈ l, f x = g x := by
  intro l
  induction l with
  | nil => intro _ x hx; exact absurd hx (List.not_mem_nil x)
  | cons a t ih =>
      intro h x hx
      simp only [List.map_cons, List.cons.injEq] at h
      rcases List.mem_cons.1 hx with hx | hx
      · exact hx ▸ h.1
      · exact ih h.2 x hx

/-! ### Claim C1: deduplication keeps the first occurrence -/

/-- C1 (amended): in a rectangular table with datetime and parameter
columns whose parameter column cannot be rewritten by imputation, for every
coerced key `k` matched by more than one input row, the clean output has
exactly one row with that key, and on every non-date-like column that row
agrees with the first matching input row wherever that row's cell is
present (a missing cell may instead hold the imputed column mean, and
date-like cells are timestamp-coerced). -/
theorem c1_dedup_first_occurrence (df : DataFrame)
    (di : Nat) (hdi : colIdx df.header "datetime" = some di)
    (hp : "parameter" ∈ df.header)
    (hrect : Rect df) (hguard : paramImputeSafe df)
    (k : Value × Value) (r0 : List Value) (tl : List (List Value))
    (_htl : tl ≠ [])
    (hfirst : df.rows.filter (fun r =>
        (parseTimestamp (getCell df.header r "datetime"),
         getCell df.header r "parameter") = k) = r0 :: tl) :
    ∃ row, (clean_data df).rows.filter (fun r =>
        (getCell df.header r "datetime", getCell df.header r "parameter") = k) =
        [row] ∧
      ∀ j, j < df.header.length → df.header.getD j "" ∉ dateColumns →
        r0.getD j Value.na ≠ Value.na → row.getD j Value.na = r0.getD j Value.na := by
  obtain ⟨pj, hpj⟩ : ∃ pj, colIdx df.header "parameter" = some pj := by
    cases hcp : colIdx df.header "parameter" with
    | none => exact absurd hp (colIdx_eq_none_iff.1 hcp)
    | some p => exact ⟨p, rfl⟩
  have hdipj : di ≠ pj := colIdx_ne hdi hpj (by decide)
  have hdt : "datetime" ∈ df.header := by
    by_contra hc
    rw [← colIdx_eq_none_iff] at hc
    rw [hc] at hdi
    exact absurd hdi (by simp)
  have hrowsne : df.rows ≠ [] := by
    intro hc
    rw [hc] at hfirst
    exact absurd hfirst.symm (by simp)
  have hne : dfEmpty df = false := by
    unfold dfEmpty
    cases hr : df.rows with
    | nil => exact absurd hr hrowsne
    | cons a l =>
        cases hh : df.header with
        | nil => rw [hh] at hp; exact absurd hp (List.not_mem_nil _)
        | cons b m => rfl
  have hrect1 : ∀ r ∈ (dedupStep df).rows, r.length = df.header.length :=
    dedupStep_lengths hrect
  have hrect2 : ∀ r ∈ parseDateColumns df.header (dedupStep df).rows,
      r.length = df.header.length := parseDateColumns_lengths hrect1
  -- the dedup stage, explicitly
  have hd : (dedupStep df).rows =
      dedupBy (fun r => (r.getD di Value.na, getCell df.header r "parameter")) []
        (df.rows.map (updateAt di parseTimestamp)) := by
    unfold dedupStep
    rw [hdi]
    dsimp only
    rw [if_pos hp]
  -- filter over the dedup stage keeps exactly the coerced first occurrence
  have hS2 : (dedupStep df).rows.filter (fun r =>
      (r.getD di Value.na, getCell df.header r "parameter") = k) =
      [updateAt di parseTimestamp r0] := by
    rw [hd, dedupBy_filter_key _ k _ [] (List.not_mem_nil k),
      List.filter_map]
    simp only [Function.comp_def]
    have hpc : ∀ r : List Value, decide
        (((updateAt di parseTimestamp r).getD di Value.na,
          getCell df.header (updateAt di parseTimestamp r) "parameter") = k) = decide
        ((parseTimestamp (getCell df.header r "datetime"),
          getCell df.header r "parameter") = k) := by
      intro r
      have h1 : (updateAt di parseTimestamp r).getD di Value.na =
          parseTimestamp (getCell df.header r "datetime") := by
        rw [updateAt_parse_getD]
        unfold getCell
        rw [hdi]
      have h2 : getCell df.header (updateAt di parseTimestamp r) "parameter" =
          getCell df.header r "parameter" := by
        unfold getCell
        rw [hpj]
        exact updateAt_getD_ne parseTimestamp r pj di (fun he => hdipj he.symm)
      simp only [h1, h2]
    rw [List.filter_congr (fun r _ => hpc r), hfirst]
    rfl
  -- datetime reads are coercion fixed points after dedup
  have hfix1 : ∀ r ∈ (dedupStep df).rows, isTimeOrNa (r.getD di Value.na) = true := by
    intro r hr
    exact dedupStep_dt_fixed hdi _ (List.mem_map_of_mem (fun r => r.getD di Value.na) hr)
  -- the date-column pass as a row map, preserving keys on dedup output
  have hS3 : (parseDateColumns df.header (dedupStep df).rows).filter (fun r =>
      (r.getD di Value.na, getCell df.header r "parameter") = k) =
      [(fun r => parseCellFun df.header "dateLocal" (parseCellFun df.header "date.utc"
        (parseCellFun df.header "date" (parseCellFun df.header "datetime" r))))
        (updateAt di parseTimestamp r0)] := by
    rw [parseDateColumns_eq_map, List.filter_map]
    have hkeep : ∀ r ∈ (dedupStep df).rows,
        ((fun r => decide ((r.getD di Value.na, getCell df.header r "parameter") = k)) ∘
          (fun r => parseCellFun df.header "dateLocal" (parseCellFun df.header "date.utc"
            (parseCellFun df.header "date" (parseCellFun df.header "datetime" r))))) r =
        decide ((r.getD di Value.na, getCell df.header r "parameter") = k) := by
      intro r hr
      have hne_di : ∀ (c : String), c ≠ "datetime" →
          ∀ jc, colIdx df.header c = some jc → jc ≠ di :=
        fun c hc jc hjc => colIdx_ne hjc hdi hc
      have h1 : (parseCellFun df.header "dateLocal" (parseCellFun df.header "date.utc"
          (parseCellFun df.header "date" (parseCellFun df.header "datetime" r)))).getD
            di Value.na = r.getD di Value.na := by
        rw [parseCellFun_getD _ _ _ _ (hne_di "dateLocal" (by decide)),
          parseCellFun_getD _ _ _ _ (hne_di "date.utc" (by decide)),
          parseCellFun_getD _ _ _ _ (hne_di "date" (by decide)),
          parseCellFun_self _ _ _ hdi,
          isTimeOrNa_fix (hfix1 r hr)]
      have hne_pj : ∀ (c : String), c ≠ "parameter" →
          ∀ jc, colIdx df.header c = some jc → jc ≠ pj :=
        fun c hc jc hjc => colIdx_ne hjc hpj hc
      have h2 : getCell df.header (parseCellFun df.header "dateLocal"
          (parseCellFun df.header "date.utc" (parseCellFun df.header "date"
          (parseCellFun df.header "datetime" r)))) "parameter" =
          getCell df.header r "parameter" := by
        unfold getCell
        rw [hpj]
        dsimp only
        rw [parseCellFun_getD _ _ _ _ (hne_pj "dateLocal" (by decide)),
          parseCellFun_getD _ _ _ _ (hne_pj "date.utc" (by decide)),
          parseCellFun_getD _ _ _ _ (hne_pj "date" (by decide)),
          parseCellFun_getD _ _ _ _ (hne_pj "datetime" (by decide))]
      simp only [Function.comp_apply, h1, h2]
    rw [List.filter_congr hkeep, hS2]
    rfl
  -- the imputation stage as a row map
  obtain ⟨g, hg0, hOnly⟩ := foldl_impute_exists_map (List.range df.header.length)
    (parseDateColumns df.header (dedupStep df).rows)
  have hg : imputeAll df.header (parseDateColumns df.header (dedupStep df).rows) =
      (parseDateColumns df.header (dedupStep df).rows).map g := hg0
  -- list-level key preservation through imputation
  have hfixdt2 : ∀ v ∈ colCells di (parseDateColumns df.header (dedupStep df).rows),
      isTimeOrNa v = true := parseDateColumns_fixed (by decide) hdi _
  have hgc : (∀ v ∈ colCells pj df.rows, isNaCell v = false) ∨
      (∀ v ∈ colCells pj df.rows, isNumCell v = false) := by
    rcases hguard hp with h | h
    · left
      intro v hv
      obtain ⟨r, hr, rfl⟩ := List.mem_map.1 hv
      have hgg := h r hr
      unfold getCell at hgg
      rw [hpj] at hgg
      exact hgg
    · right
      intro v hv
      obtain ⟨r, hr, rfl⟩ := List.mem_map.1 hv
      have hgg := h r hr
      unfold getCell at hgg
      rw [hpj] at hgg
      exact hgg
  have hg2 : (∀ v ∈ colCells pj (parseDateColumns df.header (dedupStep df).rows),
        isNaCell v = false) ∨
      (∀ v ∈ colCells pj (parseDateColumns df.header (dedupStep df).rows),
        isNumCell v = false) := by
    rw [colCells_parseDateColumns_param hpj]
    rcases hgc with h | h
    · exact Or.inl (fun v hv => h v
        (colCells_dedupStep_param_sub hdi (fun he => hdipj he.symm) v hv))
    · exact Or.inr (fun v hv => h v
        (colCells_dedupStep_param_sub hdi (fun he => hdipj he.symm) v hv))
  have hc3dt : colCells di (imputeAll df.header
        (parseDateColumns df.header (dedupStep df).rows)) =
      colCells di (parseDateColumns df.header (dedupStep df).rows) := by
    rw [colCells_imputeAll (colIdx_lt hdi) hrect2]
    exact imputedCells_of_fixed hfixdt2
  have hc3pj : colCells pj (imputeAll df.header
        (parseDateColumns df.header (dedupStep df).rows)) =
      colCells pj (parseDateColumns df.header (dedupStep df).rows) := by
    rw [colCells_imputeAll (colIdx_lt hpj) hrect2]
    exact imputedCells_of_guard hg2
  have hmapg : (parseDateColumns df.header (dedupStep df).rows).map
      ((fun r => (r.getD di Value.na, getCell df.header r "parameter")) ∘ g) =
      (parseDateColumns df.header (dedupStep df).rows).map
      (fun r => (r.getD di Value.na, getCell df.header r "parameter")) := by
    rw [← List.map_map, ← hg,
      map_key2_zip di hpj
        (imputeAll df.header (parseDateColumns df.header (dedupStep df).rows)),
      hc3dt, hc3pj,
      ← map_key2_zip di hpj (parseDateColumns df.header (dedupStep df).rows)]
  have hkeyg : ∀ r ∈ parseDateColumns df.header (dedupStep df).rows,
      (g r).getD di Value.na = r.getD di Value.na ∧
      getCell df.header (g r) "parameter" = getCell df.header r "parameter" := by
    intro r hr
    have := map_eq_map_mem _ _ _ hmapg r hr
    simp only [Function.comp_apply, Prod.mk.injEq] at this
    exact this
  have hS4 : (imputeAll df.header
      (parseDateColumns df.header (dedupStep df).rows)).filter (fun r =>
      (r.getD di Value.na, getCell df.header r "parameter") = k) =
      [g ((fun r => parseCellFun df.header "dateLocal" (parseCellFun df.header "date.utc"
        (parseCellFun df.header "date" (parseCellFun df.header "datetime" r))))
        (updateAt di parseTimestamp r0))] := by
    rw [hg, List.filter_map]
    have hcongr : ∀ r ∈ parseDateColumns df.header (dedupStep df).rows,
        ((fun r => decide ((r.getD di Value.na, getCell df.header r "parameter") = k)) ∘ g) r =
        decide ((r.getD di Value.na, getCell df.header r "parameter") = k) := by
      intro r hr
      obtain ⟨h1, h2⟩ := hkeyg r hr
      simp only [Function.comp_apply, h1, h2]
    rw [List.filter_congr hcongr, hS3]
    rfl
  -- final sort: a permutation of a singleton filter is that singleton
  have hy : (clean_data df).rows = List.insertionSort (rowLE df.header)
      (imputeAll df.header (parseDateColumns df.header (dedupStep df).rows)) := by
    rw [clean_data_eq df hne]
    unfold sortStep
    rw [if_pos hdt]
  refine ⟨g ((fun r => parseCellFun df.header "dateLocal" (parseCellFun df.header "date.utc"
      (parseCellFun df.header "date" (parseCellFun df.header "datetime" r))))
      (updateAt di parseTimestamp r0)), ?_, ?_⟩
  · have hout : ∀ r, (decide
        ((getCell df.header r "datetime", getCell df.header r "parameter") = k)) = decide
        ((r.getD di Value.na, getCell df.header r "parameter") = k) := by
      intro r
      have : getCell df.header r "datetime" = r.getD di Value.na := by
        unfold getCell
        rw [hdi]
      rw [this]
    rw [hy, List.filter_congr (fun r _ => hout r)]
    refine List.perm_singleton.1 ?_
    rw [← hS4]
    exact (List.perm_insertionSort (rowLE df.header) _).filter _
  · intro j hj hjdate hjna
    have hj_ne_di : j ≠ di := by
      intro he
      rw [he, colIdx_getD hdi] at hjdate
      exact hjdate (by decide)
    have hne_j : ∀ (c : String), c ∈ dateColumns →
        ∀ jc, colIdx df.header c = some jc → jc ≠ j := by
      intro c hc jc hjc he
      rw [he] at hjc
      rw [colIdx_getD hjc] at hjdate
      exact hjdate hc
    have hX : ((fun r => parseCellFun df.header "dateLocal"
        (parseCellFun df.header "date.utc" (parseCellFun df.header "date"
        (parseCellFun df.header "datetime" r)))) (updateAt di parseTimestamp r0)).getD
          j Value.na = r0.getD j Value.na := by
      simp only
      rw [parseCellFun_getD _ _ _ _ (hne_j "dateLocal" (by decide)),
        parseCellFun_getD _ _ _ _ (hne_j "date.utc" (by decide)),
        parseCellFun_getD _ _ _ _ (hne_j "date" (by decide)),
        parseCellFun_getD _ _ _ _ (hne_j "datetime" (by decide)),
        updateAt_getD_ne parseTimestamp r0 j di hj_ne_di]
    rcases hOnly ((fun r => parseCellFun df.header "dateLocal"
        (parseCellFun df.header "date.utc" (parseCellFun df.header "date"
        (parseCellFun df.header "datetime" r)))) (updateAt di parseTimestamp r0)) j with
      h | h
    · rw [h, hX]
    · rw [hX] at h
      exact absurd h hjna

/-- Evaluation of clean on the C1 counterexample input: the duplicate is
dropped, then the kept first occurrence's missing value is imputed to the
mean 20 of the surviving present values. -/
theorem clean_dupValueDF :
    clean_data dupValueDF =
      ⟨["datetime", "parameter", "value"],
       [[.time 1, .str "pm25", .num 20], [.time 2, .str "pm25", .num 20]]⟩ := by
  rw [clean_data_eq dupValueDF (by decide)]
  have hR : parseDateColumns dupValueDF.header (dedupStep dupValueDF).rows =
      [[Value.time 1, Value.str "pm25", Value.na],
       [Value.time 2, Value.str "pm25", Value.num 20]] := by
    decide
  rw [hR]
  have hcc : colCells 2 [[Value.time 1, Value.str "pm25", Value.na],
      [Value.time 2, Value.str "pm25", Value.num 20]] = [Value.na, Value.num 20] := by
    decide
  have hpv : presentVals [Value.na, Value.num 20] = [20] := rfl
  have hm : colMean [Value.na, Value.num 20] = some 20 := by
    unfold colMean
    rw [hpv]
    norm_num
  have h2 : imputeColumn 2 [[Value.time 1, Value.str "pm25", Value.na],
        [Value.time 2, Value.str "pm25", Value.num 20]] =
      [[Value.time 1, Value.str "pm25", Value.num 20],
       [Value.time 2, Value.str "pm25", Value.num 20]] := by
    unfold imputeColumn
    rw [hcc, hm]
    rw [if_pos (by decide)]
    decide
  have himp : imputeAll dupValueDF.header
      [[Value.time 1, Value.str "pm25", Value.na],
       [Value.time 2, Value.str "pm25", Value.num 20]] =
      [[Value.time 1, Value.str "pm25", Value.num 20],
       [Value.time 2, Value.str "pm25", Value.num 20]] := by
    show imputeColumn 2 (imputeColumn 1 (imputeColumn 0
      [[Value.time 1, Value.str "pm25", Value.na],
       [Value.time 2, Value.str "pm25", Value.num 20]])) = _
    rw [show imputeColumn 0 [[Value.time 1, Value.str "pm25", Value.na],
        [Value.time 2, Value.str "pm25", Value.num 20]] =
        [[Value.time 1, Value.str "pm25", Value.na],
         [Value.time 2, Value.str "pm25", Value.num 20]] from by decide,
      show imputeColumn 1 [[Value.time 1, Value.str "pm25", Value.na],
        [Value.time 2, Value.str "pm25", Value.num 20]] =
        [[Value.time 1, Value.str "pm25", Value.na],
         [Value.time 2, Value.str "pm25", Value.num 20]] from by decide,
      h2]
  rw [himp]
  decide

/-- C1 counterexample: in `dupValueDF` the coerced pair (time 1, pm25)
occurs in two input rows whose first occurrence carries a missing value;
the clean output has exactly one row with that pair, but its value field is
the imputed mean 20, not the first occurrence's missing marker — so the
output row does not equal the first occurrence on its other fields. -/
theorem c1_counterexample :
    dupValueDF.rows.filter (fun r =>
        (parseTimestamp (getCell dupValueDF.header r "datetime"),
         getCell dupValueDF.header r "parameter") =
        (Value.time 1, Value.str "pm25")) =
      [[Value.str "1", Value.str "pm25", Value.na],
       [Value.str "1", Value.str "pm25", Value.num 10]] ∧
    (clean_data dupValueDF).rows.filter (fun r =>
        (getCell dupValueDF.header r "datetime",
         getCell dupValueDF.header r "parameter") =
        (Value.time 1, Value.str "pm25")) =
      [[Value.time 1, Value.str "pm25", Value.num 20]] ∧
    Value.num 20 ≠ Value.na := by
  refine ⟨by decide, ?_, by decide⟩
  rw [clean_dupValueDF]
  decide

/-- C1 witness: the amended theorem applied to a concrete table in which
the pair (time 5, pm25) occurs twice with present values. -/
theorem c1_witness :
    (colIdx dupDF.header "datetime" = some 0 ∧ "parameter" ∈ dupDF.header ∧
     Rect dupDF ∧ paramImputeSafe dupDF ∧
     ([[Value.str "5", Value.str "pm25", Value.num 2]] : List (List Value)) ≠ [] ∧
     dupDF.rows.filter (fun r =>
        (parseTimestamp (getCell dupDF.header r "datetime"),
         getCell dupDF.header r "parameter") = (Value.time 5, Value.str "pm25")) =
       [Value.str "5", Value.str "pm25", Value.num 1] ::
         [[Value.str "5", Value.str "pm25", Value.num 2]]) ∧
    (∃ row, (clean_data dupDF).rows.filter (fun r =>
        (getCell dupDF.header r "datetime", getCell dupDF.header r "parameter") =
        (Value.time 5, Value.str "pm25")) = [row] ∧
      ∀ j, j < dupDF.header.length → dupDF.header.getD j "" ∉ dateColumns →
        ([Value.str "5", Value.str "pm25", Value.num 1] : List Value).getD j Value.na ≠
            Value.na →
          row.getD j Value.na =
            ([Value.str "5", Value.str "pm25", Value.num 1] : List Value).getD j Value.na) :=
  ⟨⟨by decide, by decide, by decide, by decide, by decide, by decide⟩,
   c1_dedup_first_occurrence dupDF 0 (by decide) (by decide) (by decide) (by decide)
     (Value.time 5, Value.str "pm25") [Value.str "5", Value.str "pm25", Value.num 1]
     [[Value.str "5", Value.str "pm25", Value.num 2]] (by decide) (by decide)⟩

end AirQuality
